import Mathlib

/-!
Shallow embedding of the photo-ingestion/sync pipeline of this repository
(`scripts/photos-sync.js` in its three generations: the filesystem walker
with album folders, the flat filesystem walker with a `--n` cap, and the
osxphotos external-library variant with diff/prune), together with proofs
about the claims of the specification.

Modelling conventions:
* JavaScript strings are `String`, arrays are `List`, `Set` membership is
  list membership, and `async` sequencing is ordinary sequencing (a single
  batch run has no observable interleaving).
* Per-file/per-photo effects that depend on bytes on disk or on the network
  (content hashing, EXIF parsing, sharp transcoding, uploads) are oracles:
  functions passed as parameters to the run.  A `none`/`false` oracle result
  models a thrown exception in the corresponding `try` block.
* `process.exit(n)` terminates the process immediately; in particular a
  pending `finally` block does NOT run (Node semantics).  Runs expose an
  `exitCode` field recording such an early termination.
* `Date.prototype.toISOString` output is modelled digit-by-digit
  (`isoDateTime`), which is exact for dates whose components are in range.
* Floating point formatting (`formatShutter`, `formatEV`,
  `formatFocalLength`) and the CIE L* luminance computation are not
  modelled; the `exif` object and the luminance scalar are carried as
  opaque values, which suffices for every claim treated here.
-/

namespace PhotoSync

/-- One decimal digit as a character. -/
def digitChar : Nat → Char
  | 0 => '0' | 1 => '1' | 2 => '2' | 3 => '3' | 4 => '4'
  | 5 => '5' | 6 => '6' | 7 => '7' | 8 => '8' | _ => '9'

/-- Two-digit zero-padded decimal rendering (as characters). -/
def pad2c (n : Nat) : List Char := [digitChar (n / 10), digitChar (n % 10)]

/-- Four-digit zero-padded decimal rendering (as characters). -/
def pad4c (n : Nat) : List Char :=
  [digitChar (n / 1000), digitChar (n / 100 % 10), digitChar (n / 10 % 10), digitChar (n % 10)]

/-- Two-digit zero-padded decimal rendering, as in `String(n).padStart(2, '0')`
for `n < 100`. -/
def pad2 (n : Nat) : String := String.mk (pad2c n)

/-- Four-digit zero-padded decimal rendering. -/
def pad4 (n : Nat) : String := String.mk (pad4c n)

/-- A calendar timestamp, the payload of a successfully parsed JavaScript
`Date` (as read from EXIF `DateTimeOriginal`). -/
structure Timestamp where
  year : Nat
  month : Nat
  day : Nat
  hour : Nat
  minute : Nat
  second : Nat
deriving Repr, DecidableEq

/-- `new Date(x).toISOString().replace(/\.\d\x7b3\x7dZ$/, '')`: the fixed-width
ISO rendering `YYYY-MM-DDTHH:MM:SS` with the millisecond part stripped. -/
def isoDateTime (t : Timestamp) : String :=
  pad4 t.year ++ "-" ++ pad2 t.month ++ "-" ++ pad2 t.day ++ "T" ++
    pad2 t.hour ++ ":" ++ pad2 t.minute ++ ":" ++ pad2 t.second

/-- `new Date(x).toISOString().slice(0, 10)`: the date part `YYYY-MM-DD`. -/
def isoDate (t : Timestamp) : String :=
  pad4 t.year ++ "-" ++ pad2 t.month ++ "-" ++ pad2 t.day

/-- The sparse human-readable EXIF record stored on a catalogue entry.
Fields are present-or-absent, never null-filled. -/
structure Exif where
  camera : Option String := none
  lens : Option String := none
  focal_length : Option String := none
  focal_length_35mm : Option String := none
  aperture : Option String := none
  shutter_speed : Option String := none
  iso : Option Nat := none
  exposure_compensation : Option String := none
deriving Repr, DecidableEq

/-- A persisted catalogue entry (one element of `src/data/photos.json`).
`luminance` is in tenths of a CIE L* unit (the script stores a one-decimal
number); it is `none` for entries of the first pipeline generation. -/
structure Entry where
  id : String
  filename : String
  album : String
  date_taken : String
  date_uploaded : String
  width : Nat
  height : Nat
  thumb_url : String
  preview_url : String
  exif : Exif
  luminance : Option Int
deriving Repr, DecidableEq

/-- The `MONTH_NAMES` table of `scripts/photos-sync.js`. -/
def MONTH_NAMES : List (String × Nat) :=
  [("january", 1), ("february", 2), ("march", 3), ("april", 4), ("may", 5), ("june", 6),
   ("july", 7), ("august", 8), ("september", 9), ("october", 10), ("november", 11),
   ("december", 12)]

/-- The value produced by the lookup `MONTH_NAMES[word]`.  `MONTH_NAMES` is
a plain object literal, so it inherits from `Object.prototype`, and bracket
lookup walks the prototype chain: an own property yields its month number,
and the word `constructor` yields the inherited `Object` constructor
function — a truthy value that passes the `if (month)` guard.
`constructor` is the only inherited property name consisting solely of
lowercase letters, hence the only one the matched `[a-z]+` group can ever
produce (camel-case names like `hasOwnProperty` cannot match the lowercased
word, and `__proto__` contains underscores). -/
inductive MonthValue where
  | num (n : Nat)
  | ctor
deriving Repr, DecidableEq

/-- `MONTH_NAMES[word]` with prototype-chain semantics: `none` models
`undefined` (falsy, so the caller falls through to the folder name);
`some v` is a truthy value. -/
def monthLookup (s : String) : Option MonthValue :=
  match (MONTH_NAMES.find? (fun p => p.1 == s)).map (fun p => p.2) with
  | some n => some (MonthValue.num n)
  | none => if s == "constructor" then some MonthValue.ctor else none

/-- `String(month).padStart(2, '0')`: a month number is rendered zero-padded
to two digits; the inherited `Object` constructor stringifies to its native
source text, which `padStart` leaves unchanged (it is longer than two
characters). -/
def monthString : MonthValue → String
  | MonthValue.num n => pad2 n
  | MonthValue.ctor => "function Object() \x7b [native code] \x7d"

/-- The regex `^(\d\x7b4\x7d)-(\d\x7b2\x7d)-(\d\x7b2\x7d)` applied to the folder
name: on success, the matched ten-character `YYYY-MM-DD` prefix. -/
def matchIso : List Char → Option String
  | y1 :: y2 :: y3 :: y4 :: '-' :: m1 :: m2 :: '-' :: d1 :: d2 :: _ =>
    if y1.isDigit && y2.isDigit && y3.isDigit && y4.isDigit &&
       m1.isDigit && m2.isDigit && d1.isDigit && d2.isDigit then
      some (String.mk [y1, y2, y3, y4, '-', m1, m2, '-', d1, d2])
    else
      none
  | _ => none

/-- `[a-z]` (the character class used by the month-name regex after
`toLowerCase()`). -/
def isAsciiLower (c : Char) : Bool := 'a' ≤ c && c ≤ 'z'

/-- `A-Z` or `a-z`. -/
def isAsciiAlpha (c : Char) : Bool := ('a' ≤ c && c ≤ 'z') || ('A' ≤ c && c ≤ 'Z')

/-- `String(day).padStart(2, '0')` applied to the matched one-or-two digit
day group. -/
def padDay : List Char → List Char
  | [c] => ['0', c]
  | cs => cs

/-- The regex `^(\d\x7b4\x7d)_([a-z]+)_(\d\x7b1,2\x7d)` applied to the
lowercased folder name, followed by the `MONTH_NAMES[word]` lookup
(prototype chain included, see `monthLookup`): when the lookup is truthy,
the string `year-month-day` with the month rendered by `monthString`.  The
greedy `[a-z]+` group is the maximal run of lowercase letters (a shorter
run cannot be followed by `_`, so no backtracking case arises), and
`\d\x7b1,2\x7d` takes two digits when available, else one. -/
def matchMonth : List Char → Option String
  | y1 :: y2 :: y3 :: y4 :: '_' :: rest =>
    if y1.isDigit && y2.isDigit && y3.isDigit && y4.isDigit then
      let letters := rest.takeWhile isAsciiLower
      if letters.isEmpty then
        none
      else
        match rest.dropWhile isAsciiLower with
        | '_' :: ds =>
          let dayChars : Option (List Char) :=
            match ds with
            | c1 :: c2 :: _ =>
              if c1.isDigit then (if c2.isDigit then some [c1, c2] else some [c1]) else none
            | [c1] => if c1.isDigit then some [c1] else none
            | [] => none
          match dayChars with
          | none => none
          | some dcs =>
            match monthLookup (String.mk letters) with
            | none => none
            | some v =>
              some (String.mk [y1, y2, y3, y4] ++ "-" ++ monthString v ++ "-" ++
                String.mk (padDay dcs))
        | _ => none
    else
      none
  | _ => none

/-- `parseFolderDate` of `scripts/photos-sync.js`: ISO prefix first, then the
underscored month-name form on the lowercased name, else the folder name
unchanged. -/
def parseFolderDate (name : String) : String :=
  match matchIso name.toList with
  | some d => d
  | none =>
    match matchMonth (name.toList.map Char.toLower) with
    | some d => d
    | none => name

/-- Is a character list exactly a zero-padded fixed-width
`YYYY-MM-DDTHH:MM:SS` timestamp? -/
def isIsoTimestampChars : List Char → Bool
  | [a, b, c, d, '-', e, f, '-', g, h, 'T', i, j, ':', k, l, ':', m, n] =>
    a.isDigit && b.isDigit && c.isDigit && d.isDigit && e.isDigit && f.isDigit &&
    g.isDigit && h.isDigit && i.isDigit && j.isDigit && k.isDigit && l.isDigit &&
    m.isDigit && n.isDigit
  | _ => false

/-- Is a string a zero-padded fixed-width ISO timestamp `YYYY-MM-DDTHH:MM:SS`? -/
def isIsoTimestamp (s : String) : Bool := isIsoTimestampChars s.toList

/-- Components bounded so that the zero-padded rendering is faithful
(real calendar components are far inside these bounds). -/
def tsInRange (t : Timestamp) : Prop :=
  t.year < 10000 ∧ t.month < 100 ∧ t.day < 100 ∧ t.hour < 100 ∧ t.minute < 100 ∧ t.second < 100

/-- Numeric key of a timestamp: chronological order is the order of this
value (components packed in base 100, year most significant). -/
def tsVal (t : Timestamp) : Nat :=
  ((((t.year * 100 + t.month) * 100 + t.day) * 100 + t.hour) * 100 + t.minute) * 100 + t.second

/-- The sort applied before persisting:
`catalogue.sort((a, b) => b.date_taken.localeCompare(a.date_taken))` —
a stable sort, descending by the `date_taken` string. -/
def sortCat (l : List Entry) : List Entry :=
  l.mergeSort (fun a b => decide (b.date_taken ≤ a.date_taken))

/- ── Filesystem variant (`scripts/photos-sync.js`) ───────────────────────── -/

/-- A node of the `public/photos/` tree.  Paths are modelled as lists of
segments relative to `PHOTOS_DIR`. -/
inductive FsNode where
  | file (name : String)
  | dir (name : String) (children : List FsNode)
deriving Repr

/-- `extname(name).toLowerCase()`: the lowercased extension including the
dot; empty when there is no dot or the only dot starts the (hidden) name. -/
def extnameLower (name : String) : String :=
  let rev := name.toList.reverse
  let afterDot := rev.takeWhile (fun c => !(c == '.'))
  if rev.length - 1 ≤ afterDot.length then ""
  else String.mk ('.' :: (afterDot.reverse.map Char.toLower))

/-- `SUPPORTED_EXTS`. -/
def SUPPORTED_EXTS : List String := [".jpg", ".jpeg", ".png", ".heic"]

mutual

/-- `walkImages` on one directory entry: files are kept when their
lowercased extension is supported, directories are walked recursively and
their name prepended to each result path. -/
def walkNode : FsNode → List (List String)
  | .file name => if SUPPORTED_EXTS.contains (extnameLower name) then [[name]] else []
  | .dir name children => (walkList children).map (fun p => name :: p)

/-- `walkImages` over the entries of one directory (`readdirSync` order). -/
def walkList : List FsNode → List (List String)
  | [] => []
  | n :: rest => walkNode n ++ walkList rest

end

/-- `walkImages(PHOTOS_DIR)`: `none` models an inaccessible root
(`!existsSync(dir)`), for which the function returns the empty result. -/
def walkImages : Option (List FsNode) → List (List String)
  | none => []
  | some entries => walkList entries

/-- `rel.split('/')[0]`: the first segment of the relative path (for a file
directly under the root this is the filename itself). -/
def folderPart : List String → String
  | [] => ""
  | s :: _ => s

/-- `basename(filePath)`: the last segment. -/
def fileName : List String → String
  | [] => ""
  | [s] => s
  | _ :: rest => fileName rest

/-- Per-file oracle: everything the script learns about one file by reading
it.  `id` is `sha256File(buf)` (first 12 hex chars of the content hash).
`exifDate` is `DateTimeOriginal` when present and parseable into a valid
`Date`; a present-but-unparseable value makes `toISOString()` throw inside
the per-photo `try`, which is subsumed by `ok := false`.  `ok := false`
models any throw of the per-photo pipeline (EXIF/sharp/upload). -/
structure PhotoFile where
  id : String
  exifDate : Option Timestamp
  width : Nat
  height : Nat
  exifBuilt : Exif
  ok : Bool
deriving Repr, DecidableEq

/-- Album derivation: EXIF date if present, else `parseFolderDate` of the
first path segment under `public/photos/`. -/
def fsAlbum (c : PhotoFile) (path : List String) : String :=
  match c.exifDate with
  | some ts => isoDate ts
  | none => parseFolderDate (folderPart path)

/-- `dateTaken`: the full ISO timestamp when EXIF has a date, else
`` `${album}T00:00:00` ``. -/
def fsDateTaken (c : PhotoFile) (album : String) : String :=
  match c.exifDate with
  | some ts => isoDateTime ts
  | none => album ++ "T00:00:00"

/-- First-generation thumbnail object key `photos/.../_600.jpg`
(album subpath, JPEG). -/
def fsThumbKey (album id : String) : String :=
  "photos/" ++ album ++ "/" ++ id ++ "_600.jpg"

/-- First-generation preview object key (album subpath, JPEG). -/
def fsPreviewKey (album id : String) : String :=
  "photos/" ++ album ++ "/" ++ id ++ "_1800.jpg"

/-- The catalogue entry built for a newly processed file (first-generation
pipeline; no luminance field). -/
def fsEntry (publicBase : String) (c : PhotoFile) (path : List String) (now : String) : Entry :=
  let album := fsAlbum c path
  { id := c.id
    filename := fileName path
    album := album
    date_taken := fsDateTaken c album
    date_uploaded := now
    width := c.width
    height := c.height
    thumb_url := publicBase ++ "/" ++ fsThumbKey album c.id
    preview_url := publicBase ++ "/" ++ fsPreviewKey album c.id
    exif := c.exifBuilt
    luminance := none }

/-- Mutable state of the main loop of the filesystem variant. -/
structure FsState where
  catalogue : List Entry
  knownIds : List String
  added : Nat
  skipped : Nat
  uploadedKeys : List String
deriving Repr, DecidableEq

/-- One iteration of the main loop: skip when the content id is already
known; otherwise run the per-photo pipeline, appending the entry and its id
on success and leaving catalogue and known-id set untouched on a throw
(the partial uploads of a failed photo are not tracked). -/
def fsStep (read : List String → PhotoFile) (pb now : String) (st : FsState)
    (path : List String) : FsState :=
  let c := read path
  if st.knownIds.contains c.id then
    { st with skipped := st.skipped + 1 }
  else if c.ok then
    let e := fsEntry pb c path now
    { st with
      catalogue := st.catalogue ++ [e]
      knownIds := st.knownIds ++ [c.id]
      added := st.added + 1
      uploadedKeys := st.uploadedKeys ++ [fsThumbKey e.album c.id, fsPreviewKey e.album c.id] }
  else
    st

/-- The main loop over the enumerated image paths. -/
def fsLoop (read : List String → PhotoFile) (pb now : String) :
    List (List String) → FsState → FsState
  | [], st => st
  | p :: rest, st => fsLoop read pb now rest (fsStep read pb now st p)

/-- Result of one run of the filesystem variant.  `wrote` records that
`writeFileSync(CATALOGUE_PATH, ...)` was reached (it always is: the
variant has no abort path inside `main`). -/
structure FsRun where
  images : List (List String)
  catalogue : List Entry
  wrote : Bool
  added : Nat
  skipped : Nat
  uploadedKeys : List String
deriving Repr, DecidableEq

/-- `main()` of the filesystem variant: enumerate, loop, sort, write.
`cat0` is the loaded catalogue (empty on missing/corrupt file). -/
def runFs (root : Option (List FsNode)) (read : List String → PhotoFile)
    (cat0 : List Entry) (pb now : String) : FsRun :=
  let images := walkImages root
  let st0 : FsState :=
    { catalogue := cat0, knownIds := cat0.map (fun e => e.id), added := 0, skipped := 0,
      uploadedKeys := [] }
  let st := fsLoop read pb now images st0
  { images := images
    catalogue := sortCat st.catalogue
    wrote := true
    added := st.added
    skipped := st.skipped
    uploadedKeys := st.uploadedKeys }

/- ── Flat filesystem variant with `--n` cap (second generation) ──────────── -/

/-- State of the second-generation main loop (`--n` cap): same skip logic,
plus an `attempted` counter checked against the cap. -/
structure FlatState where
  known : List String
  attempted : Nat
  added : Nat
  skipped : Nat
deriving Repr, DecidableEq

/-- Has the `--n` cap been reached? (`attempted >= limit`; an absent flag is
`Infinity`, never reached.) -/
def capReached : Option Nat → Nat → Bool
  | some n, attempted => decide (n ≤ attempted)
  | none, _ => false

/-- The second-generation main loop.  A known id is skipped (and counting
continues); otherwise, when `attempted >= limit` the loop `break`s; otherwise
the candidate enters the extract/transcode/upload path (`attempted++`),
appending its id on success.  `limit = none` models the absent `--n`
flag (`Infinity`).  The per-photo body is abstracted to the `ok` flag of
the oracle record, as in the first-generation model. -/
def flatLoop (read : List String → PhotoFile) (limit : Option Nat) :
    List (List String) → FlatState → FlatState
  | [], st => st
  | p :: rest, st =>
    let c := read p
    if st.known.contains c.id then
      flatLoop read limit rest { st with skipped := st.skipped + 1 }
    else if capReached limit st.attempted then
      st
    else
      let st1 := { st with attempted := st.attempted + 1 }
      if c.ok then
        flatLoop read limit rest
          { st1 with known := st1.known ++ [c.id], added := st1.added + 1 }
      else
        flatLoop read limit rest st1

/- ── External-library variant (osxphotos, third generation) ──────────────── -/

/-- One record of the `osxphotos query --album ... --json` output.
`exifBuilt` stands for `buildExif(photo.exif_info)` (the float formatters
are not modelled; no claim inspects the formatted values). -/
structure SourcePhoto where
  uuid : String
  original_filename : String
  date : String
  original_width : Nat
  original_height : Nat
  isphoto : Bool
  exifBuilt : Exif
deriving Repr, DecidableEq

/-- `id.includes('-')`: the structural marker distinguishing UUID identities
from legacy truncated content hashes. -/
def hasMarker (s : String) : Bool := s.toList.contains '-'

/-- `entry.id.includes('-') ? 'webp' : 'jpg'`. -/
def delExt (id : String) : String := if hasMarker id then "webp" else "jpg"

/-- The two object keys attempted by `deleteFromS3` for one entry. -/
def delKeys (e : Entry) : List String :=
  ["photos/" ++ e.id ++ "_600." ++ delExt e.id,
   "photos/" ++ e.id ++ "_1800." ++ delExt e.id]

/-- Outcome of `deleteFromS3` for one entry given a per-key success oracle:
both keys are always attempted; a failed key is logged as a warning and
swallowed (the surrounding promise never rejects). -/
structure DelOutcome where
  attempted : List String
  warned : List String
deriving Repr, DecidableEq

/-- `deleteFromS3(entry)` under the per-key success oracle `delOk`. -/
def deleteFromS3 (delOk : String → Bool) (e : Entry) : DelOutcome :=
  { attempted := delKeys e
    warned := (delKeys e).filter (fun k => !(delOk k)) }

/-- `catalogue.filter(e => e.id.includes('-'))`. -/
def uuidEntries (cat : List Entry) : List Entry := cat.filter (fun e => hasMarker e.id)

/-- `catalogue.filter(e => !e.id.includes('-'))`. -/
def legacyEntries (cat : List Entry) : List Entry := cat.filter (fun e => !(hasMarker e.id))

/-- `albumByUuid.has(id)`: is the id a uuid of the enumerated album? -/
def inAlbum (album : List SourcePhoto) (id : String) : Bool :=
  album.any (fun p => p.uuid == id)

/-- `keptUuids`: ids of uuid-entries whose uuid is in the enumerated album. -/
def keptUuids (cat : List Entry) (album : List SourcePhoto) : List String :=
  ((uuidEntries cat).filter (fun e => inAlbum album e.id)).map (fun e => e.id)

/-- `toDelete`: all legacy entries, plus uuid-entries no longer in the album. -/
def toDelete (cat : List Entry) (album : List SourcePhoto) : List Entry :=
  legacyEntries cat ++ (uuidEntries cat).filter (fun e => !(inAlbum album e.id))

/-- `toAdd`: album photos whose uuid is not kept. -/
def toAdd (cat : List Entry) (album : List SourcePhoto) : List SourcePhoto :=
  album.filter (fun p => !((keptUuids cat album).contains p.uuid))

/-- All object keys attempted by the prune phase
(`Promise.all(toDelete.map(deleteFromS3))`). -/
def delAttempts (cat : List Entry) (album : List SourcePhoto) : List String :=
  (toDelete cat album).flatMap delKeys

/-- The in-memory catalogue after the prune phase: entries whose id is
scheduled for deletion are dropped (guarded by `toDelete.length > 0` in the
script; the guard is kept for fidelity, though filtering by an empty id set
is the identity). -/
def pruneCat (cat : List Entry) (album : List SourcePhoto) : List Entry :=
  if 0 < (toDelete cat album).length then
    cat.filter (fun e => !(((toDelete cat album).map (fun d => d.id)).contains e.id))
  else
    cat

/-- Third-generation thumbnail key (flat, WebP). -/
def extThumbKey (uuid : String) : String := "photos/" ++ uuid ++ "_600.webp"

/-- Third-generation preview key (flat, WebP). -/
def extPreviewKey (uuid : String) : String := "photos/" ++ uuid ++ "_1800.webp"

/-- The catalogue entry pushed for one successfully exported, transcoded and
uploaded album photo.  `lum` is the computed luminance (tenths of L*). -/
def extEntry (pb : String) (p : SourcePhoto) (lum : Int) (now : String) : Entry :=
  { id := p.uuid
    filename := p.original_filename
    album := p.date.take 10
    date_taken := p.date
    date_uploaded := now
    width := p.original_width
    height := p.original_height
    thumb_url := pb ++ "/" ++ extThumbKey p.uuid
    preview_url := pb ++ "/" ++ extPreviewKey p.uuid
    exif := p.exifBuilt
    luminance := some lum }

/-- State of the add loop of the external variant. -/
structure AddState where
  catalogue : List Entry
  added : Nat
  uploadedKeys : List String
deriving Repr, DecidableEq

/-- The per-photo add loop (step 6 of the script).  `proc p = none` models a
missing exported file (`continue`) or a throw of the transcode/upload body
(caught and logged); `proc p = some lum` is full success with computed
luminance `lum`. -/
def addLoop (proc : SourcePhoto → Option Int) (pb now : String) :
    List SourcePhoto → AddState → AddState
  | [], st => st
  | p :: rest, st =>
    match proc p with
    | none => addLoop proc pb now rest st
    | some lum =>
      addLoop proc pb now rest
        { catalogue := st.catalogue ++ [extEntry pb p lum now]
          added := st.added + 1
          uploadedKeys := st.uploadedKeys ++ [extThumbKey p.uuid, extPreviewKey p.uuid] }

/-- Observable outcome of one run of the external variant. -/
structure ExtRun where
  exitCode : Option Nat
  catalogue : List Entry
  wrote : Bool
  prunedCatalogue : List Entry
  deleteAttempts : List String
  deleteWarnings : List String
  addAttempts : List SourcePhoto
  addedCount : Nat
  uploadedKeys : List String
  toDeleteCount : Nat
  toAddCount : Nat
  tmpCreated : Bool
  tmpRemoved : Bool
deriving Repr, DecidableEq

/-- `main()` of the external variant.

* `queryOk = false`: `osxphotos query` exited non-zero — `process.exit(1)`
  before any catalogue read, deletion, upload or write.
* step 3: diff (`toDelete` / `toAdd`), then `--limit` is applied to the
  additions only (`toAdd.slice(0, limit)`).
* step 4: prune — every `toDelete` entry has both keys attempted (failures
  logged per key) and is dropped from the in-memory catalogue.
* step 5: when there is something to add, a run-scoped temp dir is created;
  `exportOk = false` models a non-zero `osxphotos export` status, upon which
  the script calls `process.exit(1)` inside the `try`, so the `finally`
  (`rmSync(tmpDir)`) does not run and nothing further happens.
* step 6: the add loop; step 7: sort and write. -/
def runExternal (queryOk : Bool) (queryRows : List SourcePhoto) (cat0 : List Entry)
    (cap : Option Nat) (delOk : String → Bool) (exportOk : Bool)
    (proc : SourcePhoto → Option Int) (pb now : String) : ExtRun :=
  if queryOk then
    let albumPhotos := queryRows.filter (fun p => p.isphoto)
    let dels := toDelete cat0 albumPhotos
    let adds := toAdd cat0 albumPhotos
    let addsLimited := match cap with | some n => adds.take n | none => adds
    let attempts := delAttempts cat0 albumPhotos
    let warns := attempts.filter (fun k => !(delOk k))
    let cat1 := pruneCat cat0 albumPhotos
    if addsLimited.isEmpty then
      { exitCode := none, catalogue := sortCat cat1, wrote := true, prunedCatalogue := cat1,
        deleteAttempts := attempts, deleteWarnings := warns, addAttempts := [],
        addedCount := 0, uploadedKeys := [], toDeleteCount := dels.length,
        toAddCount := adds.length, tmpCreated := false, tmpRemoved := false }
    else if exportOk then
      let stA := addLoop proc pb now addsLimited
        { catalogue := cat1, added := 0, uploadedKeys := [] }
      { exitCode := none, catalogue := sortCat stA.catalogue, wrote := true,
        prunedCatalogue := cat1, deleteAttempts := attempts, deleteWarnings := warns,
        addAttempts := addsLimited, addedCount := stA.added,
        uploadedKeys := stA.uploadedKeys, toDeleteCount := dels.length,
        toAddCount := adds.length, tmpCreated := true, tmpRemoved := true }
    else
      { exitCode := some 1, catalogue := [], wrote := false, prunedCatalogue := cat1,
        deleteAttempts := attempts, deleteWarnings := warns, addAttempts := addsLimited,
        addedCount := 0, uploadedKeys := [], toDeleteCount := dels.length,
        toAddCount := adds.length, tmpCreated := true, tmpRemoved := false }
  else
    { exitCode := some 1, catalogue := [], wrote := false, prunedCatalogue := [],
      deleteAttempts := [], deleteWarnings := [], addAttempts := [], addedCount := 0,
      uploadedKeys := [], toDeleteCount := 0, toAddCount := 0,
      tmpCreated := false, tmpRemoved := false }

/- ── Sample data for concrete instantiations ─────────────────────────────── -/

/-- A legacy-identity catalogue entry (bare truncated hex hash, no `-`). -/
def entryL : Entry :=
  { id := "aabbccddeeff", filename := "a.jpg", album := "2024-05-01",
    date_taken := "2024-05-01T00:00:00", date_uploaded := "2024-06-01T00:00:00Z",
    width := 4, height := 3, thumb_url := "t", preview_url := "p",
    exif := {}, luminance := none }

/-- A uuid-identity catalogue entry (id carries the `-` marker). -/
def entryU : Entry :=
  { id := "aaaa-bbbb", filename := "b.jpg", album := "2025-01-26",
    date_taken := "2025-01-26T14:03:22", date_uploaded := "2025-02-01T00:00:00Z",
    width := 4, height := 3, thumb_url := "t", preview_url := "p",
    exif := {}, luminance := some 500 }

/-- An album photo record whose uuid matches `entryU`. -/
def photoU : SourcePhoto :=
  { uuid := "aaaa-bbbb", original_filename := "b.jpg", date := "2025-01-26T14:03:22",
    original_width := 4, original_height := 3, isphoto := true, exifBuilt := {} }

/-- A per-file oracle result: EXIF-less photo that processes successfully. -/
def fileNoExif : PhotoFile :=
  { id := "aabbccddeeff", exifDate := none, width := 4, height := 3,
    exifBuilt := {}, ok := true }

/-- A per-file oracle result whose per-photo pipeline throws. -/
def fileFail : PhotoFile :=
  { id := "ffff00000000", exifDate := none, width := 0, height := 0,
    exifBuilt := {}, ok := false }

/-- An album photo record for which processing fails (`proc` returns none). -/
def photoFail : SourcePhoto :=
  { uuid := "cccc-dddd", original_filename := "c.jpg", date := "2025-03-01T10:00:00",
    original_width := 4, original_height := 3, isphoto := true, exifBuilt := {} }

end PhotoSync

namespace PhotoSync

/- ── Shared lemmas ───────────────────────────────────────────────────────── -/

theorem mem_sortCat {e : Entry} {l : List Entry} : e ∈ sortCat l ↔ e ∈ l := by
  simp [sortCat, List.mem_mergeSort]

theorem sortCat_sorted (l : List Entry) :
    (sortCat l).Pairwise (fun a b => decide (b.date_taken ≤ a.date_taken) = true) :=
  List.sorted_mergeSort
    (fun a b c hab hbc => by
      simp only [decide_eq_true_eq] at *
      exact le_trans hbc hab)
    (fun a b => by
      simp only [Bool.or_eq_true, decide_eq_true_eq]
      exact le_total _ _)
    l

theorem sortCat_idem (l : List Entry) : sortCat (sortCat l) = sortCat l :=
  List.mergeSort_of_sorted (sortCat_sorted l)

theorem sortCat_nil : sortCat [] = [] := by
  simp [sortCat]

theorem sortCat_single (e : Entry) : sortCat [e] = [e] := by
  simp [sortCat]

theorem mem_delAttempts {cat : List Entry} {album : List SourcePhoto} {e : Entry}
    (he : e ∈ toDelete cat album) : ∀ k ∈ delKeys e, k ∈ delAttempts cat album := by
  intro k hk
  simp only [delAttempts, List.mem_flatMap]
  exact ⟨e, he, hk⟩

theorem not_mem_pruneCat {cat : List Entry} {album : List SourcePhoto} {e : Entry}
    (he : e ∈ toDelete cat album) : e ∉ pruneCat cat album := by
  have hlen : 0 < (toDelete cat album).length :=
    List.length_pos.mpr (List.ne_nil_of_mem he)
  simp only [pruneCat, if_pos hlen, List.mem_filter, Bool.not_eq_true']
  rintro ⟨-, hc⟩
  have hm : e.id ∈ (toDelete cat album).map (fun d => d.id) :=
    List.mem_map.mpr ⟨e, he, rfl⟩
  have htrue : ((toDelete cat album).map (fun d => d.id)).elem e.id = true :=
    List.elem_eq_true_of_mem hm
  exact Bool.false_ne_true (hc.symm.trans htrue)

theorem runExternal_true_deleteAttempts (queryRows : List SourcePhoto) (cat0 : List Entry)
    (cap : Option Nat) (delOk : String → Bool) (exportOk : Bool)
    (proc : SourcePhoto → Option Int) (pb now : String) :
    (runExternal true queryRows cat0 cap delOk exportOk proc pb now).deleteAttempts
      = delAttempts cat0 (queryRows.filter (fun p => p.isphoto)) ∧
    (runExternal true queryRows cat0 cap delOk exportOk proc pb now).prunedCatalogue
      = pruneCat cat0 (queryRows.filter (fun p => p.isphoto)) := by
  simp only [runExternal, if_true]
  split <;> (try split) <;> exact ⟨rfl, rfl⟩

end PhotoSync

namespace PhotoSync

/-- Claim C3: in the reconciler's diff, every catalogue entry whose id lacks
the `-` marker (a bare legacy hash) is placed in the to-delete set regardless
of source presence, and every entry whose id carries the marker is kept
(i.e. not placed in the to-delete set) if and only if its id is a uuid of
the enumerated album. -/
theorem legacy_diff_routing (cat : List Entry) (album : List SourcePhoto) (e : Entry)
    (he : e ∈ cat) :
    (hasMarker e.id = false → e ∈ toDelete cat album) ∧
    (hasMarker e.id = true → (e ∉ toDelete cat album ↔ inAlbum album e.id = true)) := by
  constructor
  · intro hm
    unfold toDelete legacyEntries
    exact List.mem_append_left _ (List.mem_filter.mpr (by simp [he, hm]))
  · intro hm
    unfold toDelete legacyEntries uuidEntries
    simp [List.mem_append, List.mem_filter, he, hm]

/-- Witness for C3 at concrete inputs: the legacy entry is routed to
deletion even though no source check is made, and the uuid entry is kept
precisely because its uuid is in the album. -/
theorem legacy_diff_routing_witness :
    entryL ∈ toDelete [entryL, entryU] [photoU] ∧
    (entryU ∉ toDelete [entryL, entryU] [photoU] ↔ inAlbum [photoU] entryU.id = true) :=
  ⟨(legacy_diff_routing [entryL, entryU] [photoU] entryL (by decide)).1 (by decide),
   (legacy_diff_routing [entryL, entryU] [photoU] entryU (by decide)).2 (by decide)⟩

/-- Claim C10: remote deletion for an entry always attempts exactly the two
keys `photos/(id)_600.(ext)` and `photos/(id)_1800.(ext)` with `ext`
determined by the `-` marker in the id (webp for uuid ids, jpg for legacy
ids); the keys never involve the entry's `album` field, although the
first-generation upload keys were `photos/(album)/(id)_(size).jpg`. -/
theorem deletion_key_shape :
    (∀ (delOk : String → Bool) (e : Entry),
        (deleteFromS3 delOk e).attempted = delKeys e ∧ (delKeys e).length = 2) ∧
    (∀ e : Entry, hasMarker e.id = true →
        delKeys e = ["photos/" ++ e.id ++ "_600.webp", "photos/" ++ e.id ++ "_1800.webp"]) ∧
    (∀ e : Entry, hasMarker e.id = false →
        delKeys e = ["photos/" ++ e.id ++ "_600.jpg", "photos/" ++ e.id ++ "_1800.jpg"]) ∧
    (∀ (e : Entry) (a : String), delKeys { e with album := a } = delKeys e) ∧
    (∀ album id : String,
        fsThumbKey album id = "photos/" ++ album ++ "/" ++ id ++ "_600.jpg" ∧
        fsPreviewKey album id = "photos/" ++ album ++ "/" ++ id ++ "_1800.jpg") := by
  have h6w : ("_600." : String) ++ "webp" = "_600.webp" := rfl
  have h18w : ("_1800." : String) ++ "webp" = "_1800.webp" := rfl
  have h6j : ("_600." : String) ++ "jpg" = "_600.jpg" := rfl
  have h18j : ("_1800." : String) ++ "jpg" = "_1800.jpg" := rfl
  refine ⟨fun delOk e => ⟨rfl, rfl⟩, fun e hm => ?_, fun e hm => ?_,
    fun e a => rfl, fun album id => ⟨rfl, rfl⟩⟩
  · simp [delKeys, delExt, hm, String.append_assoc, h6w, h18w]
  · simp [delKeys, delExt, hm, String.append_assoc, h6j, h18j]

/-- Witness for C10 at the two concrete entries (uuid and legacy ids). -/
theorem deletion_key_shape_witness :
    delKeys entryU = ["photos/aaaa-bbbb_600.webp", "photos/aaaa-bbbb_1800.webp"] ∧
    delKeys entryL = ["photos/aabbccddeeff_600.jpg", "photos/aabbccddeeff_1800.jpg"] := by
  constructor
  · have h := deletion_key_shape.2.1 entryU (by decide)
    simpa using h
  · have h := deletion_key_shape.2.2.1 entryL (by decide)
    simpa using h

end PhotoSync

namespace PhotoSync

/-- Claim C4: for every entry scheduled for deletion, both of its remote keys
are attempted (independently of which deletions fail), and the entry is
dropped from the in-memory catalogue; per-key failures change nothing of the
run except the logged warnings — the catalogue, the prune result, the exit
status, the additions and the cleanup behaviour are identical for any two
per-key success oracles. -/
theorem deletion_independence (queryRows : List SourcePhoto) (cat0 : List Entry)
    (cap : Option Nat) (delOk delOk' : String → Bool) (exportOk : Bool)
    (proc : SourcePhoto → Option Int) (pb now : String) :
    (∀ e ∈ toDelete cat0 (queryRows.filter (fun p => p.isphoto)),
        (deleteFromS3 delOk e).attempted = delKeys e ∧
        (∀ k ∈ delKeys e,
          k ∈ (runExternal true queryRows cat0 cap delOk exportOk proc pb now).deleteAttempts) ∧
        e ∉ (runExternal true queryRows cat0 cap delOk exportOk proc pb now).prunedCatalogue) ∧
    ((runExternal true queryRows cat0 cap delOk exportOk proc pb now).catalogue
      = (runExternal true queryRows cat0 cap delOk' exportOk proc pb now).catalogue ∧
     (runExternal true queryRows cat0 cap delOk exportOk proc pb now).prunedCatalogue
      = (runExternal true queryRows cat0 cap delOk' exportOk proc pb now).prunedCatalogue ∧
     (runExternal true queryRows cat0 cap delOk exportOk proc pb now).deleteAttempts
      = (runExternal true queryRows cat0 cap delOk' exportOk proc pb now).deleteAttempts ∧
     (runExternal true queryRows cat0 cap delOk exportOk proc pb now).exitCode
      = (runExternal true queryRows cat0 cap delOk' exportOk proc pb now).exitCode ∧
     (runExternal true queryRows cat0 cap delOk exportOk proc pb now).addedCount
      = (runExternal true queryRows cat0 cap delOk' exportOk proc pb now).addedCount ∧
     (runExternal true queryRows cat0 cap delOk exportOk proc pb now).wrote
      = (runExternal true queryRows cat0 cap delOk' exportOk proc pb now).wrote ∧
     (runExternal true queryRows cat0 cap delOk exportOk proc pb now).tmpRemoved
      = (runExternal true queryRows cat0 cap delOk' exportOk proc pb now).tmpRemoved) := by
  obtain ⟨hA, hP⟩ :=
    runExternal_true_deleteAttempts queryRows cat0 cap delOk exportOk proc pb now
  constructor
  · intro e he
    refine ⟨rfl, ?_, ?_⟩
    · rw [hA]
      exact mem_delAttempts he
    · rw [hP]
      exact not_mem_pruneCat he
  · simp only [runExternal, if_true]
    split <;> (try split) <;>
      exact ⟨rfl, rfl, rfl, rfl, rfl, rfl, rfl⟩

/-- Witness for C4 at concrete inputs: with every remote deletion failing,
the legacy entry is still dropped from the catalogue, and the persisted
catalogue equals the one of a run where every deletion succeeds. -/
theorem deletion_independence_witness :
    (entryL ∉ (runExternal true [photoU] [entryL, entryU] none (fun _ => false) true
        (fun _ => some 500) "pb" "now").prunedCatalogue) ∧
    ((runExternal true [photoU] [entryL, entryU] none (fun _ => false) true
        (fun _ => some 500) "pb" "now").catalogue
      = (runExternal true [photoU] [entryL, entryU] none (fun _ => true) true
        (fun _ => some 500) "pb" "now").catalogue) := by
  have h := deletion_independence [photoU] [entryL, entryU] none (fun _ => false)
    (fun _ => true) true (fun _ => some 500) "pb" "now"
  exact ⟨(h.1 entryL (by decide)).2.2, h.2.1⟩

end PhotoSync

namespace PhotoSync

/-- Claim C2, counterexample: in the filesystem variant an inaccessible root
(`!existsSync(PHOTOS_DIR)`) IS treated as an empty (zero-photo) enumeration:
the run does not abort — it reaches the catalogue write and rewrites the
file — refuting the claim that every enumeration failure aborts before any
catalogue write. -/
theorem enumeration_missing_root_cex :
    (runFs none (fun _ => fileNoExif) [entryL] "pb" "now").images = [] ∧
    (runFs none (fun _ => fileNoExif) [entryL] "pb" "now").wrote = true ∧
    (runFs none (fun _ => fileNoExif) [entryL] "pb" "now").catalogue = [entryL] :=
  ⟨rfl, rfl, sortCat_single entryL⟩

/-- Claim C2 (amended): in the external variant a failing `osxphotos query`
is fatal — the run exits with status 1 before any upload, any remote
deletion and any catalogue write.  In the filesystem variant an inaccessible
root instead yields an empty enumeration and the run continues: nothing is
uploaded, nothing is added, and the catalogue file is rewritten with its
previous entries (only re-sorted); no abort occurs. -/
theorem enumeration_failure_amended :
    (∀ (queryRows : List SourcePhoto) (cat0 : List Entry) (cap : Option Nat)
        (delOk : String → Bool) (exportOk : Bool) (proc : SourcePhoto → Option Int)
        (pb now : String),
        (runExternal false queryRows cat0 cap delOk exportOk proc pb now).exitCode = some 1 ∧
        (runExternal false queryRows cat0 cap delOk exportOk proc pb now).uploadedKeys = [] ∧
        (runExternal false queryRows cat0 cap delOk exportOk proc pb now).deleteAttempts = [] ∧
        (runExternal false queryRows cat0 cap delOk exportOk proc pb now).wrote = false) ∧
    (∀ (read : List String → PhotoFile) (cat0 : List Entry) (pb now : String),
        (runFs none read cat0 pb now).images = [] ∧
        (runFs none read cat0 pb now).wrote = true ∧
        (runFs none read cat0 pb now).uploadedKeys = [] ∧
        (runFs none read cat0 pb now).added = 0 ∧
        (runFs none read cat0 pb now).catalogue = sortCat cat0) :=
  ⟨fun _ _ _ _ _ _ _ _ => ⟨rfl, rfl, rfl, rfl⟩,
   fun _ _ _ _ => ⟨rfl, rfl, rfl, rfl, rfl⟩⟩

/-- Claim C9: when `osxphotos export` exits non-zero, the script calls
`process.exit(1)` inside the `try` block; `process.exit` terminates the
process immediately, so the `finally` that removes the run-scoped temp
directory never runs — the temp dir is created but NOT removed on that exit
path (while both the success path and the per-photo-failure path do remove
it).  This contradicts the guaranteed-cleanup claim; the `try`/`finally`
structure shows cleanup on all paths was the intent, so this is recorded as
a code bug, evaluated here at the failing input. -/
theorem export_failure_skips_cleanup :
    ((runExternal true [photoU] [] none (fun _ => true) false
        (fun _ => some 500) "pb" "now").tmpCreated = true) ∧
    ((runExternal true [photoU] [] none (fun _ => true) false
        (fun _ => some 500) "pb" "now").tmpRemoved = false) ∧
    ((runExternal true [photoU] [] none (fun _ => true) false
        (fun _ => some 500) "pb" "now").exitCode = some 1) ∧
    ((runExternal true [photoU] [] none (fun _ => true) false
        (fun _ => some 500) "pb" "now").wrote = false) ∧
    ((runExternal true [photoU] [] none (fun _ => true) true
        (fun _ => some 500) "pb" "now").tmpRemoved = true) ∧
    ((runExternal true [photoU] [] none (fun _ => true) true
        (fun _ => none) "pb" "now").tmpRemoved = true) := by
  refine ⟨?_, ?_, ?_, ?_, ?_, ?_⟩ <;> rfl

end PhotoSync

namespace PhotoSync

theorem runExternal_true_addAttempts (queryRows : List SourcePhoto) (cat0 : List Entry)
    (n : Nat) (delOk : String → Bool) (exportOk : Bool)
    (proc : SourcePhoto → Option Int) (pb now : String) :
    (runExternal true queryRows cat0 (some n) delOk exportOk proc pb now).addAttempts
      = (toAdd cat0 (queryRows.filter (fun p => p.isphoto))).take n := by
  simp only [runExternal, if_true]
  split
  · rename_i h
    exact (List.isEmpty_iff.mp h).symm
  · split <;> rfl

theorem flatLoop_attempted_le (read : List String → PhotoFile) (n : Nat) :
    ∀ (photos : List (List String)) (st : FlatState), st.attempted ≤ n →
      (flatLoop read (some n) photos st).attempted ≤ n := by
  intro photos
  induction photos with
  | nil => intro st h; exact h
  | cons p rest ih =>
    intro st h
    simp only [flatLoop]
    split
    · exact ih _ h
    · split
      · exact h
      · rename_i hcap
        have hlt : st.attempted < n := by
          simp [capReached] at hcap
          omega
        split
        · exact ih _ hlt
        · exact ih _ hlt

/-- Claim C7: the per-run cap limits only the additions — with `--limit N`
the add phase attempts exactly the first `N` elements of the to-add set (so
at most `N` candidates enter the extract/transcode/upload path), while the
prune phase is unaffected by the cap: its attempted keys and the pruned
catalogue coincide with those of an uncapped run, and every to-delete entry
still has both keys attempted and is dropped.  Likewise the `--n` cap of the
flat variant bounds the number of candidates entering the processing path. -/
theorem cap_limits_additions_only (queryRows : List SourcePhoto) (cat0 : List Entry)
    (n : Nat) (delOk : String → Bool) (exportOk : Bool)
    (proc : SourcePhoto → Option Int) (pb now : String) :
    ((runExternal true queryRows cat0 (some n) delOk exportOk proc pb now).addAttempts.length
        ≤ n ∧
      (runExternal true queryRows cat0 (some n) delOk exportOk proc pb now).addAttempts
        = (toAdd cat0 (queryRows.filter (fun p => p.isphoto))).take n ∧
      (runExternal true queryRows cat0 (some n) delOk exportOk proc pb now).deleteAttempts
        = (runExternal true queryRows cat0 none delOk exportOk proc pb now).deleteAttempts ∧
      (runExternal true queryRows cat0 (some n) delOk exportOk proc pb now).prunedCatalogue
        = (runExternal true queryRows cat0 none delOk exportOk proc pb now).prunedCatalogue ∧
      (∀ e ∈ toDelete cat0 (queryRows.filter (fun p => p.isphoto)),
        (∀ k ∈ delKeys e,
          k ∈ (runExternal true queryRows cat0 (some n) delOk exportOk proc pb
                now).deleteAttempts) ∧
        e ∉ (runExternal true queryRows cat0 (some n) delOk exportOk proc pb
                now).prunedCatalogue)) ∧
    (∀ (read : List String → PhotoFile) (photos : List (List String)) (st : FlatState),
      st.attempted ≤ n → (flatLoop read (some n) photos st).attempted ≤ n) := by
  obtain ⟨hA, hP⟩ :=
    runExternal_true_deleteAttempts queryRows cat0 (some n) delOk exportOk proc pb now
  obtain ⟨hA', hP'⟩ :=
    runExternal_true_deleteAttempts queryRows cat0 none delOk exportOk proc pb now
  have hadd := runExternal_true_addAttempts queryRows cat0 n delOk exportOk proc pb now
  refine ⟨⟨?_, hadd, ?_, ?_, ?_⟩, fun read photos st h => flatLoop_attempted_le read n photos st h⟩
  · rw [hadd]
    calc ((toAdd cat0 (queryRows.filter (fun p => p.isphoto))).take n).length
        = min n (toAdd cat0 (queryRows.filter (fun p => p.isphoto))).length :=
          List.length_take _ _
      _ ≤ n := Nat.min_le_left _ _
  · rw [hA, hA']
  · rw [hP, hP']
  · intro e he
    constructor
    · intro k hk
      rw [hA]
      exact mem_delAttempts he k hk
    · rw [hP]
      exact not_mem_pruneCat he

/-- Witness for C7 at concrete inputs: a cap of 0 attempts no addition but
the legacy entry is still pruned; the flat loop with cap 1 attempts at most
one of two fresh candidates. -/
theorem cap_limits_additions_only_witness :
    ((runExternal true [photoU] [entryL] (some 0) (fun _ => true) true
        (fun _ => some 500) "pb" "now").addAttempts.length ≤ 0) ∧
    (entryL ∉ (runExternal true [photoU] [entryL] (some 0) (fun _ => true) true
        (fun _ => some 500) "pb" "now").prunedCatalogue) ∧
    ((flatLoop (fun _ => fileNoExif) (some 1) [["a.jpg"], ["b.jpg"]]
        { known := [], attempted := 0, added := 0, skipped := 0 }).attempted ≤ 1) := by
  have h := cap_limits_additions_only [photoU] [entryL] 0 (fun _ => true) true
    (fun _ => some 500) "pb" "now"
  have h1 := cap_limits_additions_only [photoU] [entryL] 1 (fun _ => true) true
    (fun _ => some 500) "pb" "now"
  exact ⟨h.1.1, (h.1.2.2.2.2 entryL (by decide)).2,
    h1.2 (fun _ => fileNoExif) [["a.jpg"], ["b.jpg"]]
      { known := [], attempted := 0, added := 0, skipped := 0 } (by decide)⟩

end PhotoSync

namespace PhotoSync

theorem fsStep_fail {read : List String → PhotoFile} {pb now : String} {st : FsState}
    {path : List String} (hnk : (read path).id ∉ st.knownIds)
    (hfail : (read path).ok = false) : fsStep read pb now st path = st := by
  simp [fsStep, hnk, hfail]

theorem fsLoop_failed_retry (read : List String → PhotoFile) (pb now : String) (i : String) :
    ∀ (images : List (List String)) (st : FsState),
      (∀ p ∈ images, (read p).id = i → (read p).ok = false) →
      i ∉ st.knownIds → (∀ e ∈ st.catalogue, e.id ≠ i) →
      i ∉ (fsLoop read pb now images st).knownIds ∧
      (∀ e ∈ (fsLoop read pb now images st).catalogue, e.id ≠ i) := by
  intro images
  induction images with
  | nil => exact fun st _ hk hc => ⟨hk, hc⟩
  | cons p rest ih =>
    intro st hall hk hc
    simp only [fsLoop]
    by_cases hknown : (read p).id ∈ st.knownIds
    · have hstep : fsStep read pb now st p = { st with skipped := st.skipped + 1 } := by
        simp [fsStep, hknown]
      rw [hstep]
      exact ih _ (fun q hq => hall q (List.mem_cons_of_mem _ hq)) hk hc
    · by_cases hok : (read p).ok = true
      · have hne : (read p).id ≠ i := by
          intro hip
          have hf := hall p (List.mem_cons_self p rest) hip
          rw [hok] at hf
          exact Bool.noConfusion hf
        have hstep : fsStep read pb now st p =
            { st with
              catalogue := st.catalogue ++ [fsEntry pb (read p) p now]
              knownIds := st.knownIds ++ [(read p).id]
              added := st.added + 1
              uploadedKeys := st.uploadedKeys ++
                [fsThumbKey (fsEntry pb (read p) p now).album (read p).id,
                 fsPreviewKey (fsEntry pb (read p) p now).album (read p).id] } := by
          simp [fsStep, hknown, hok, fsEntry]
        rw [hstep]
        refine ih _ (fun q hq => hall q (List.mem_cons_of_mem _ hq)) ?_ ?_
        · intro hmem
          rcases List.mem_append.mp hmem with h1 | h2
          · exact hk h1
          · exact hne (List.mem_singleton.mp h2).symm
        · intro e he
          rcases List.mem_append.mp he with h1 | h2
          · exact hc e h1
          · rw [List.mem_singleton.mp h2]
            exact hne
      · have hfail : (read p).ok = false := Bool.eq_false_iff.mpr hok
        rw [fsStep_fail hknown hfail]
        exact ih _ (fun q hq => hall q (List.mem_cons_of_mem _ hq)) hk hc

theorem addLoop_failed_retry (proc : SourcePhoto → Option Int) (pb now : String) (i : String) :
    ∀ (photos : List SourcePhoto) (st : AddState),
      (∀ p ∈ photos, p.uuid = i → proc p = none) →
      (∀ e ∈ st.catalogue, e.id ≠ i) →
      ∀ e ∈ (addLoop proc pb now photos st).catalogue, e.id ≠ i := by
  intro photos
  induction photos with
  | nil => exact fun st _ hc => hc
  | cons p rest ih =>
    intro st hall hc
    simp only [addLoop]
    cases hp : proc p with
    | none => exact ih _ (fun q hq => hall q (List.mem_cons_of_mem _ hq)) hc
    | some lum =>
      refine ih _ (fun q hq => hall q (List.mem_cons_of_mem _ hq)) ?_
      intro e he
      rcases List.mem_append.mp he with h1 | h2
      · exact hc e h1
      · rw [List.mem_singleton.mp h2]
        show p.uuid ≠ i
        intro hip
        rw [hall p (List.mem_cons_self p rest) hip] at hp
        exact Option.noConfusion hp

end PhotoSync

namespace PhotoSync

/-- Claim C5: a candidate whose per-photo pipeline throws is skipped and the
run continues with the remaining candidates; the failed candidate changes
neither the in-memory catalogue nor the known-id set, so no entry with its
identity appears in the output (unless another, successful file shares it)
and it will be re-attempted on the next run.  Stated for the filesystem
variant (step and whole-run) and for the add loop of the external variant
(step and whole-loop). -/
theorem per_photo_error_atomicity :
    (∀ (read : List String → PhotoFile) (pb now : String) (st : FsState)
        (path : List String) (rest : List (List String)),
        (read path).id ∉ st.knownIds → (read path).ok = false →
        fsStep read pb now st path = st ∧
        fsLoop read pb now (path :: rest) st = fsLoop read pb now rest st) ∧
    (∀ (root : Option (List FsNode)) (read : List String → PhotoFile) (cat0 : List Entry)
        (pb now : String) (i : String),
        (∀ p ∈ walkImages root, (read p).id = i → (read p).ok = false) →
        (∀ e ∈ cat0, e.id ≠ i) →
        ∀ e ∈ (runFs root read cat0 pb now).catalogue, e.id ≠ i) ∧
    (∀ (proc : SourcePhoto → Option Int) (pb now : String) (p : SourcePhoto)
        (rest : List SourcePhoto) (st : AddState),
        proc p = none →
        addLoop proc pb now (p :: rest) st = addLoop proc pb now rest st) ∧
    (∀ (proc : SourcePhoto → Option Int) (pb now : String) (photos : List SourcePhoto)
        (st : AddState) (i : String),
        (∀ p ∈ photos, p.uuid = i → proc p = none) →
        (∀ e ∈ st.catalogue, e.id ≠ i) →
        ∀ e ∈ (addLoop proc pb now photos st).catalogue, e.id ≠ i) := by
  refine ⟨?_, ?_, ?_, ?_⟩
  · intro read pb now st path rest hnk hfail
    refine ⟨fsStep_fail hnk hfail, ?_⟩
    show fsLoop read pb now rest (fsStep read pb now st path) = fsLoop read pb now rest st
    rw [fsStep_fail hnk hfail]
  · intro root read cat0 pb now i hall hc0 e he
    have hmem : e ∈ (fsLoop read pb now (walkImages root)
        { catalogue := cat0, knownIds := cat0.map (fun x => x.id), added := 0, skipped := 0,
          uploadedKeys := [] }).catalogue := mem_sortCat.mp he
    have hk0 : i ∉ cat0.map (fun x => x.id) := by
      intro hmi
      obtain ⟨d, hd, hdi⟩ := List.mem_map.mp hmi
      exact hc0 d hd hdi
    exact (fsLoop_failed_retry read pb now i (walkImages root)
      { catalogue := cat0, knownIds := cat0.map (fun x => x.id), added := 0, skipped := 0,
        uploadedKeys := [] } hall hk0 hc0).2 e hmem
  · intro proc pb now p rest st hp
    show (match proc p with
          | none => addLoop proc pb now rest st
          | some lum =>
            addLoop proc pb now rest
              { catalogue := st.catalogue ++ [extEntry pb p lum now]
                added := st.added + 1
                uploadedKeys := st.uploadedKeys ++ [extThumbKey p.uuid, extPreviewKey p.uuid] })
        = addLoop proc pb now rest st
    rw [hp]
  · intro proc pb now photos st i hall hc
    exact addLoop_failed_retry proc pb now i photos st hall hc

/-- Witness for C5 at concrete inputs: a failing candidate leaves the loop
state untouched in both variants, and its identity is absent from the
resulting catalogues. -/
theorem per_photo_error_atomicity_witness :
    (fsStep (fun _ => fileFail) "pb" "now"
        { catalogue := [], knownIds := [], added := 0, skipped := 0, uploadedKeys := [] }
        ["a.jpg"]
      = { catalogue := [], knownIds := [], added := 0, skipped := 0, uploadedKeys := [] }) ∧
    (∀ e ∈ (runFs (some [FsNode.file "a.jpg"]) (fun _ => fileFail) [entryL] "pb"
        "now").catalogue, e.id ≠ "ffff00000000") ∧
    (∀ e ∈ (addLoop (fun _ => none) "pb" "now" [photoFail]
        { catalogue := [entryU], added := 0, uploadedKeys := [] }).catalogue,
      e.id ≠ "cccc-dddd") := by
  refine ⟨?_, ?_, ?_⟩
  · exact (per_photo_error_atomicity.1 (fun _ => fileFail) "pb" "now"
      { catalogue := [], knownIds := [], added := 0, skipped := 0, uploadedKeys := [] }
      ["a.jpg"] [] (by decide) (by decide)).1
  · exact per_photo_error_atomicity.2.1 (some [FsNode.file "a.jpg"]) (fun _ => fileFail)
      [entryL] "pb" "now" "ffff00000000" (by decide) (by decide)
  · exact per_photo_error_atomicity.2.2.2 (fun _ => none) "pb" "now" [photoFail]
      { catalogue := [entryU], added := 0, uploadedKeys := [] } "cccc-dddd"
      (by decide) (by decide)

end PhotoSync

namespace PhotoSync

theorem mem_toDelete_iff {cat : List Entry} {album : List SourcePhoto} {d : Entry} :
    d ∈ toDelete cat album ↔
      d ∈ cat ∧ (hasMarker d.id = false ∨
        (hasMarker d.id = true ∧ inAlbum album d.id = false)) := by
  unfold toDelete legacyEntries uuidEntries
  rw [List.mem_append, List.mem_filter, List.mem_filter, List.mem_filter]
  constructor
  · rintro (⟨hin, hm⟩ | ⟨⟨hin, hm⟩, ha⟩)
    · exact ⟨hin, Or.inl (by simpa using hm)⟩
    · exact ⟨hin, Or.inr ⟨hm, by simpa using ha⟩⟩
  · rintro ⟨hin, hm | ⟨hm, ha⟩⟩
    · exact Or.inl ⟨hin, by simpa using hm⟩
    · exact Or.inr ⟨⟨hin, hm⟩, by simpa using ha⟩

theorem id_mem_deleteIds_iff {cat : List Entry} {album : List SourcePhoto} {e : Entry}
    (he : e ∈ cat) :
    e.id ∈ (toDelete cat album).map (fun d => d.id) ↔
      ¬(hasMarker e.id = true ∧ inAlbum album e.id = true) := by
  constructor
  · rintro hmem ⟨hm, ha⟩
    obtain ⟨d, hd, hdi⟩ := List.mem_map.mp hmem
    rcases (mem_toDelete_iff.mp hd).2 with h1 | ⟨-, h2⟩
    · rw [hdi] at h1
      rw [hm] at h1
      exact Bool.noConfusion h1
    · rw [hdi] at h2
      rw [ha] at h2
      exact Bool.noConfusion h2
  · intro hni
    rcases Bool.eq_false_or_eq_true (hasMarker e.id) with hm | hm
    · rcases Bool.eq_false_or_eq_true (inAlbum album e.id) with ha | ha
      · exact absurd ⟨hm, ha⟩ hni
      · exact List.mem_map.mpr ⟨e, mem_toDelete_iff.mpr ⟨he, Or.inr ⟨hm, ha⟩⟩, rfl⟩
    · exact List.mem_map.mpr ⟨e, mem_toDelete_iff.mpr ⟨he, Or.inl hm⟩, rfl⟩

theorem mem_pruneCat_iff {cat : List Entry} {album : List SourcePhoto} {e : Entry} :
    e ∈ pruneCat cat album ↔
      e ∈ cat ∧ hasMarker e.id = true ∧ inAlbum album e.id = true := by
  unfold pruneCat
  split
  · rw [List.mem_filter]
    constructor
    · rintro ⟨hin, hf⟩
      refine ⟨hin, ?_⟩
      by_contra hni
      have hmem := (@id_mem_deleteIds_iff cat album e hin).mpr hni
      have htrue : ((toDelete cat album).map (fun d => d.id)).elem e.id = true :=
        List.elem_eq_true_of_mem hmem
      rw [Bool.not_eq_true'] at hf
      exact Bool.false_ne_true (hf.symm.trans htrue)
    · rintro ⟨hin, hm, ha⟩
      refine ⟨hin, ?_⟩
      rw [Bool.not_eq_true']
      by_contra hcon
      have hc : ((toDelete cat album).map (fun d => d.id)).contains e.id = true := by
        cases hx : ((toDelete cat album).map (fun d => d.id)).contains e.id with
        | true => rfl
        | false => exact absurd hx hcon
      have hmem : e.id ∈ (toDelete cat album).map (fun d => d.id) := by
        have := List.elem_iff.mp hc
        exact this
      exact (id_mem_deleteIds_iff hin).mp hmem ⟨hm, ha⟩
  · rename_i hlen
    have hnil : toDelete cat album = [] := by
      cases hx : toDelete cat album with
      | nil => rfl
      | cons a l =>
        rw [hx] at hlen
        simp at hlen
    have hparts := List.append_eq_nil.mp (by rw [← hnil]; rfl)
    constructor
    · intro hin
      refine ⟨hin, ?_, ?_⟩
      · have := (List.filter_eq_nil_iff.mp hparts.1) e hin
        simpa using this
      · have hm : hasMarker e.id = true := by
          have := (List.filter_eq_nil_iff.mp hparts.1) e hin
          simpa using this
        have hu : e ∈ uuidEntries cat := List.mem_filter.mpr ⟨hin, hm⟩
        have := (List.filter_eq_nil_iff.mp hparts.2) e hu
        simpa using this
    · exact fun h => h.1

theorem addLoop_catalogue (proc : SourcePhoto → Option Int) (pb now : String) :
    ∀ (photos : List SourcePhoto) (st : AddState),
      (addLoop proc pb now photos st).catalogue
        = st.catalogue ++
          photos.filterMap (fun p => (proc p).map (fun l => extEntry pb p l now)) := by
  intro photos
  induction photos with
  | nil => intro st; simp [addLoop]
  | cons p rest ih =>
    intro st
    simp only [addLoop]
    cases hp : proc p with
    | none => simp [ih, List.filterMap_cons, hp]
    | some lum => simp [ih, List.filterMap_cons, hp]

theorem runExternal_true_export_catalogue (queryRows : List SourcePhoto) (cat0 : List Entry)
    (cap : Option Nat) (delOk : String → Bool) (proc : SourcePhoto → Option Int)
    (pb now : String) :
    (runExternal true queryRows cat0 cap delOk true proc pb now).catalogue
      = sortCat (pruneCat cat0 (queryRows.filter (fun p => p.isphoto)) ++
          ((match cap with
            | some n => (toAdd cat0 (queryRows.filter (fun p => p.isphoto))).take n
            | none => toAdd cat0 (queryRows.filter (fun p => p.isphoto))).filterMap
            (fun p => (proc p).map (fun l => extEntry pb p l now)))) ∧
    (runExternal true queryRows cat0 cap delOk true proc pb now).exitCode = none ∧
    (runExternal true queryRows cat0 cap delOk true proc pb now).wrote = true := by
  simp only [runExternal, if_true]
  split
  · rename_i hempty
    rw [List.isEmpty_iff] at hempty
    refine ⟨?_, rfl, rfl⟩
    rw [hempty]
    simp
  · refine ⟨?_, rfl, rfl⟩
    rw [addLoop_catalogue]

end PhotoSync

namespace PhotoSync

theorem inAlbum_of_mem {A : List SourcePhoto} {p : SourcePhoto} (hp : p ∈ A) :
    inAlbum A p.uuid = true := by
  unfold inAlbum
  rw [List.any_eq_true]
  exact ⟨p, hp, by simp⟩

theorem exists_mem_inAlbum {A : List SourcePhoto} {i : String} (h : inAlbum A i = true) :
    ∃ p ∈ A, p.uuid = i := by
  unfold inAlbum at h
  rw [List.any_eq_true] at h
  obtain ⟨p, hp, hbeq⟩ := h
  exact ⟨p, hp, by simpa using hbeq⟩

theorem mem_keptUuids_iff {cat : List Entry} {A : List SourcePhoto} {i : String} :
    i ∈ keptUuids cat A ↔
      ∃ e ∈ cat, e.id = i ∧ hasMarker e.id = true ∧ inAlbum A e.id = true := by
  unfold keptUuids uuidEntries
  rw [List.mem_map]
  constructor
  · rintro ⟨e, he, rfl⟩
    rw [List.mem_filter, List.mem_filter] at he
    exact ⟨e, he.1.1, rfl, he.1.2, he.2⟩
  · rintro ⟨e, he, rfl, hm, ha⟩
    exact ⟨e, List.mem_filter.mpr ⟨List.mem_filter.mpr ⟨he, hm⟩, ha⟩, rfl⟩

theorem mem_toAdd_iff {cat : List Entry} {A : List SourcePhoto} {p : SourcePhoto} :
    p ∈ toAdd cat A ↔ p ∈ A ∧ p.uuid ∉ keptUuids cat A := by
  unfold toAdd
  rw [List.mem_filter]
  constructor
  · rintro ⟨hp, hf⟩
    refine ⟨hp, fun hmem => ?_⟩
    have htrue : (keptUuids cat A).elem p.uuid = true := List.elem_eq_true_of_mem hmem
    rw [Bool.not_eq_true'] at hf
    exact Bool.false_ne_true (hf.symm.trans htrue)
  · rintro ⟨hp, hf⟩
    refine ⟨hp, ?_⟩
    rw [Bool.not_eq_true']
    cases hx : (keptUuids cat A).contains p.uuid with
    | false => rfl
    | true => exact absurd (List.elem_iff.mp hx) hf

/-- Every entry of the catalogue produced by a fully successful run of the
external variant carries the marker and belongs to the album; conversely
every album uuid is the id of some produced entry. -/
theorem runExternal_first_run_ids (queryRows : List SourcePhoto) (cat0 : List Entry)
    (delOk1 : String → Bool) (proc1 : SourcePhoto → Option Int) (pb now1 : String)
    (hmark : ∀ p ∈ queryRows.filter (fun p => p.isphoto), hasMarker p.uuid = true)
    (hok : ∀ p ∈ queryRows.filter (fun p => p.isphoto), (proc1 p).isSome = true) :
    (∀ e ∈ (runExternal true queryRows cat0 none delOk1 true proc1 pb now1).catalogue,
      hasMarker e.id = true ∧
        inAlbum (queryRows.filter (fun p => p.isphoto)) e.id = true) ∧
    (∀ p ∈ queryRows.filter (fun p => p.isphoto),
      ∃ e ∈ (runExternal true queryRows cat0 none delOk1 true proc1 pb now1).catalogue,
        e.id = p.uuid) := by
  obtain ⟨hcat, -, -⟩ :=
    runExternal_true_export_catalogue queryRows cat0 none delOk1 proc1 pb now1
  constructor
  · intro e he
    rw [hcat] at he
    rw [mem_sortCat] at he
    rcases List.mem_append.mp he with h1 | h2
    · obtain ⟨-, hm, ha⟩ := mem_pruneCat_iff.mp h1
      exact ⟨hm, ha⟩
    · obtain ⟨p, hp, hpe⟩ := List.mem_filterMap.mp h2
      obtain ⟨l, -, hl⟩ := Option.map_eq_some'.mp hpe
      have hpA : p ∈ queryRows.filter (fun p => p.isphoto) := (mem_toAdd_iff.mp hp).1
      have hid : e.id = p.uuid := by rw [← hl]; rfl
      rw [hid]
      exact ⟨hmark p hpA, inAlbum_of_mem hpA⟩
  · intro p hp
    by_cases hkept : p.uuid ∈ keptUuids cat0 (queryRows.filter (fun q => q.isphoto))
    · obtain ⟨e, he, hei, hm, ha⟩ := mem_keptUuids_iff.mp hkept
      refine ⟨e, ?_, hei⟩
      rw [hcat, mem_sortCat]
      exact List.mem_append_left _ (mem_pruneCat_iff.mpr ⟨he, hm, ha⟩)
    · have hadd : p ∈ toAdd cat0 (queryRows.filter (fun q => q.isphoto)) :=
        mem_toAdd_iff.mpr ⟨hp, hkept⟩
      obtain ⟨l, hl⟩ := Option.isSome_iff_exists.mp (hok p hp)
      refine ⟨extEntry pb p l now1, ?_, rfl⟩
      rw [hcat, mem_sortCat]
      refine List.mem_append_right _ (List.mem_filterMap.mpr ⟨p, hadd, ?_⟩)
      rw [hl]
      rfl

end PhotoSync

namespace PhotoSync

/-- A second run of the external variant over the unchanged album, starting
from the catalogue produced by a fully successful uncapped run, deletes
nothing, attempts nothing, adds nothing, and writes back exactly the same
catalogue. -/
theorem runExternal_second_run (queryRows : List SourcePhoto) (cat0 : List Entry)
    (delOk1 delOk2 : String → Bool) (exportOk2 : Bool)
    (proc1 proc2 : SourcePhoto → Option Int) (pb now1 now2 : String)
    (hmark : ∀ p ∈ queryRows.filter (fun p => p.isphoto), hasMarker p.uuid = true)
    (hok : ∀ p ∈ queryRows.filter (fun p => p.isphoto), (proc1 p).isSome = true) :
    runExternal true queryRows
        (runExternal true queryRows cat0 none delOk1 true proc1 pb now1).catalogue
        none delOk2 exportOk2 proc2 pb now2
      = { exitCode := none
          catalogue :=
            (runExternal true queryRows cat0 none delOk1 true proc1 pb now1).catalogue
          wrote := true
          prunedCatalogue :=
            (runExternal true queryRows cat0 none delOk1 true proc1 pb now1).catalogue
          deleteAttempts := [], deleteWarnings := [], addAttempts := []
          addedCount := 0, uploadedKeys := [], toDeleteCount := 0, toAddCount := 0
          tmpCreated := false, tmpRemoved := false } := by
  obtain ⟨hall, hcover⟩ :=
    runExternal_first_run_ids queryRows cat0 delOk1 proc1 pb now1 hmark hok
  obtain ⟨hcat, -, -⟩ :=
    runExternal_true_export_catalogue queryRows cat0 none delOk1 proc1 pb now1
  set A := queryRows.filter (fun p => p.isphoto) with hA
  set R := (runExternal true queryRows cat0 none delOk1 true proc1 pb now1).catalogue
    with hRdef
  have hdel : toDelete R A = [] := by
    rw [List.eq_nil_iff_forall_not_mem]
    intro d hd
    obtain ⟨hdR, hbad⟩ := mem_toDelete_iff.mp hd
    obtain ⟨hm, ha⟩ := hall d hdR
    rcases hbad with h1 | ⟨-, h2⟩
    · rw [hm] at h1
      exact Bool.noConfusion h1
    · rw [ha] at h2
      exact Bool.noConfusion h2
  have hadd : toAdd R A = [] := by
    rw [List.eq_nil_iff_forall_not_mem]
    intro p hp
    obtain ⟨hpA, hkept⟩ := mem_toAdd_iff.mp hp
    obtain ⟨e, he, hei⟩ := hcover p hpA
    obtain ⟨hm, ha⟩ := hall e he
    exact hkept (mem_keptUuids_iff.mpr ⟨e, he, hei, hm, ha⟩)
  have hprune : pruneCat R A = R := by
    unfold pruneCat
    rw [hdel]
    simp
  have hsort : sortCat R = R := by
    rw [hcat]
    exact sortCat_idem _
  have hatt : delAttempts R A = [] := by
    unfold delAttempts
    rw [hdel]
    rfl
  simp only [runExternal, if_true]
  rw [← hA, hadd, hdel, hprune, hsort, hatt]
  simp

end PhotoSync

namespace PhotoSync

theorem fsStep_known_mono (read : List String → PhotoFile) (pb now : String)
    (st : FsState) (p : List String) :
    st.knownIds ⊆ (fsStep read pb now st p).knownIds := by
  simp only [fsStep]
  split
  · exact fun a h => h
  · split
    · exact List.subset_append_left _ _
    · exact fun a h => h

theorem fsLoop_known_mono (read : List String → PhotoFile) (pb now : String) :
    ∀ (images : List (List String)) (st : FsState),
      st.knownIds ⊆ (fsLoop read pb now images st).knownIds := by
  intro images
  induction images with
  | nil => exact fun st => fun a h => h
  | cons p rest ih =>
    intro st
    exact (fsStep_known_mono read pb now st p).trans (ih (fsStep read pb now st p))

theorem fsStep_ok_known (read : List String → PhotoFile) (pb now : String)
    (st : FsState) (q : List String) (hok : (read q).ok = true) :
    (read q).id ∈ (fsStep read pb now st q).knownIds := by
  simp only [fsStep, hok, if_true]
  split
  · rename_i h
    exact List.elem_iff.mp h
  · exact List.mem_append_right _ (List.mem_singleton.mpr rfl)

theorem fsLoop_ok_known (read : List String → PhotoFile) (pb now : String) :
    ∀ (images : List (List String)) (st : FsState),
      (∀ p ∈ images, (read p).ok = true) →
      ∀ p ∈ images, (read p).id ∈ (fsLoop read pb now images st).knownIds := by
  intro images
  induction images with
  | nil => exact fun st _ p hp => absurd hp (List.not_mem_nil p)
  | cons q rest ih =>
    intro st hall p hp
    rcases List.mem_cons.mp hp with rfl | hrest
    · exact fsLoop_known_mono read pb now rest (fsStep read pb now st p)
        (fsStep_ok_known read pb now st p (hall p (List.mem_cons_self p rest)))
    · exact ih (fsStep read pb now st q)
        (fun r hr => hall r (List.mem_cons_of_mem _ hr)) p hrest

theorem fsLoop_known_catalogue (read : List String → PhotoFile) (pb now : String) :
    ∀ (images : List (List String)) (st : FsState),
      st.knownIds = st.catalogue.map (fun e => e.id) →
      (fsLoop read pb now images st).knownIds
        = (fsLoop read pb now images st).catalogue.map (fun e => e.id) := by
  intro images
  induction images with
  | nil => exact fun st h => h
  | cons p rest ih =>
    intro st hinv
    simp only [fsLoop]
    refine ih (fsStep read pb now st p) ?_
    simp only [fsStep]
    split
    · exact hinv
    · split
      · simp [hinv, fsEntry]
      · exact hinv

theorem fsLoop_all_known_skip (read : List String → PhotoFile) (pb now : String) :
    ∀ (images : List (List String)) (st : FsState),
      (∀ p ∈ images, (read p).id ∈ st.knownIds) →
      fsLoop read pb now images st = { st with skipped := st.skipped + images.length } := by
  intro images
  induction images with
  | nil => intro st _; simp [fsLoop]
  | cons p rest ih =>
    intro st hall
    simp only [fsLoop]
    have hstep : fsStep read pb now st p = { st with skipped := st.skipped + 1 } := by
      simp only [fsStep]
      rw [if_pos (List.elem_eq_true_of_mem (hall p (List.mem_cons_self p rest)))]
    rw [hstep]
    rw [ih { st with skipped := st.skipped + 1 }
      (fun r hr => hall r (List.mem_cons_of_mem _ hr))]
    simp only [List.length_cons]
    congr 1
    omega

theorem mem_map_sortCat {i : String} {l : List Entry} :
    i ∈ (sortCat l).map (fun e => e.id) ↔ i ∈ l.map (fun e => e.id) := by
  constructor
  · intro h
    obtain ⟨e, he, hei⟩ := List.mem_map.mp h
    exact List.mem_map.mpr ⟨e, mem_sortCat.mp he, hei⟩
  · intro h
    obtain ⟨e, he, hei⟩ := List.mem_map.mp h
    exact List.mem_map.mpr ⟨e, mem_sortCat.mpr he, hei⟩

/-- A second run of the filesystem variant over the unchanged tree, starting
from the catalogue produced by a fully successful run, skips every
enumerated file as already known, adds nothing, uploads nothing, and writes
back exactly the same catalogue. -/
theorem runFs_second_run (root : Option (List FsNode)) (read : List String → PhotoFile)
    (cat0 : List Entry) (pb now1 now2 : String)
    (hok : ∀ p ∈ walkImages root, (read p).ok = true) :
    runFs root read (runFs root read cat0 pb now1).catalogue pb now2
      = { images := walkImages root
          catalogue := (runFs root read cat0 pb now1).catalogue
          wrote := true
          added := 0
          skipped := (walkImages root).length
          uploadedKeys := [] } := by
  set R := (runFs root read cat0 pb now1).catalogue with hR
  have hknown : ∀ p ∈ walkImages root, (read p).id ∈ R.map (fun e => e.id) := by
    intro p hp
    have h1 := fsLoop_ok_known read pb now1 (walkImages root)
      { catalogue := cat0, knownIds := cat0.map (fun x => x.id), added := 0, skipped := 0,
        uploadedKeys := [] } hok p hp
    rw [fsLoop_known_catalogue read pb now1 (walkImages root) _ rfl] at h1
    rw [hR]
    show (read p).id ∈ (sortCat (fsLoop read pb now1 (walkImages root)
      { catalogue := cat0, knownIds := cat0.map (fun x => x.id), added := 0, skipped := 0,
        uploadedKeys := [] }).catalogue).map (fun e => e.id)
    rw [mem_map_sortCat]
    exact h1
  have hskip := fsLoop_all_known_skip read pb now2 (walkImages root)
    { catalogue := R, knownIds := R.map (fun e => e.id)
      added := 0, skipped := 0, uploadedKeys := [] } hknown
  have hsort : sortCat R = R := by
    rw [hR]
    show sortCat (sortCat (fsLoop read pb now1 (walkImages root)
      { catalogue := cat0, knownIds := cat0.map (fun x => x.id), added := 0, skipped := 0,
        uploadedKeys := [] }).catalogue) = _
    exact sortCat_idem _
  show runFs root read R pb now2 = _
  simp only [runFs]
  rw [hskip]
  simp [hsort]

end PhotoSync

namespace PhotoSync

/-- Claim C1: running the pipeline a second time against an unchanged source
with no cap is idempotent.  External variant: if the first (uncapped,
successful-export) run processed all its candidates successfully and the
library ids carry the structural marker, the second run writes back exactly
the catalogue of the first run — every previously added entry is untouched
in all fields (`id`, `date_taken`, `exif`, `luminance`, `date_uploaded`) —
and it adds zero entries, attempts zero additions and zero deletions.
Filesystem variant: after a first run that processed every enumerated file
successfully, a second run skips every candidate as already known, adds
nothing, and writes back exactly the same catalogue. -/
theorem idempotence_second_run :
    (∀ (queryRows : List SourcePhoto) (cat0 : List Entry) (delOk1 delOk2 : String → Bool)
        (exportOk2 : Bool) (proc1 proc2 : SourcePhoto → Option Int) (pb now1 now2 : String),
      (∀ p ∈ queryRows.filter (fun p => p.isphoto), hasMarker p.uuid = true) →
      (∀ p ∈ queryRows.filter (fun p => p.isphoto), (proc1 p).isSome = true) →
      (runExternal true queryRows
          (runExternal true queryRows cat0 none delOk1 true proc1 pb now1).catalogue
          none delOk2 exportOk2 proc2 pb now2).catalogue
        = (runExternal true queryRows cat0 none delOk1 true proc1 pb now1).catalogue ∧
      (runExternal true queryRows
          (runExternal true queryRows cat0 none delOk1 true proc1 pb now1).catalogue
          none delOk2 exportOk2 proc2 pb now2).addedCount = 0 ∧
      (runExternal true queryRows
          (runExternal true queryRows cat0 none delOk1 true proc1 pb now1).catalogue
          none delOk2 exportOk2 proc2 pb now2).addAttempts = [] ∧
      (runExternal true queryRows
          (runExternal true queryRows cat0 none delOk1 true proc1 pb now1).catalogue
          none delOk2 exportOk2 proc2 pb now2).deleteAttempts = [] ∧
      (runExternal true queryRows
          (runExternal true queryRows cat0 none delOk1 true proc1 pb now1).catalogue
          none delOk2 exportOk2 proc2 pb now2).toDeleteCount = 0 ∧
      (runExternal true queryRows
          (runExternal true queryRows cat0 none delOk1 true proc1 pb now1).catalogue
          none delOk2 exportOk2 proc2 pb now2).toAddCount = 0) ∧
    (∀ (root : Option (List FsNode)) (read : List String → PhotoFile) (cat0 : List Entry)
        (pb now1 now2 : String),
      (∀ p ∈ walkImages root, (read p).ok = true) →
      (runFs root read (runFs root read cat0 pb now1).catalogue pb now2).catalogue
        = (runFs root read cat0 pb now1).catalogue ∧
      (runFs root read (runFs root read cat0 pb now1).catalogue pb now2).added = 0 ∧
      (runFs root read (runFs root read cat0 pb now1).catalogue pb now2).skipped
        = (walkImages root).length) := by
  constructor
  · intro queryRows cat0 delOk1 delOk2 exportOk2 proc1 proc2 pb now1 now2 hmark hok
    have h := runExternal_second_run queryRows cat0 delOk1 delOk2 exportOk2 proc1 proc2
      pb now1 now2 hmark hok
    rw [h]
    exact ⟨rfl, rfl, rfl, rfl, rfl, rfl⟩
  · intro root read cat0 pb now1 now2 hok
    have h := runFs_second_run root read cat0 pb now1 now2 hok
    rw [h]
    exact ⟨rfl, rfl, rfl⟩

/-- Witness for C1 at concrete inputs: one album photo, one legacy entry in
the starting catalogue, all processing successful; the second run returns
the first run's catalogue unchanged and does nothing, in both variants. -/
theorem idempotence_second_run_witness :
    ((runExternal true [photoU]
        (runExternal true [photoU] [entryL] none (fun _ => true) true
          (fun _ => some 500) "pb" "N1").catalogue
        none (fun _ => true) true (fun _ => some 500) "pb" "N2").catalogue
      = (runExternal true [photoU] [entryL] none (fun _ => true) true
          (fun _ => some 500) "pb" "N1").catalogue) ∧
    ((runExternal true [photoU]
        (runExternal true [photoU] [entryL] none (fun _ => true) true
          (fun _ => some 500) "pb" "N1").catalogue
        none (fun _ => true) true (fun _ => some 500) "pb" "N2").addedCount = 0) ∧
    ((runFs (some [FsNode.dir "2025-01-26_trip" [FsNode.file "a.jpg"]])
        (fun _ => fileNoExif)
        (runFs (some [FsNode.dir "2025-01-26_trip" [FsNode.file "a.jpg"]])
          (fun _ => fileNoExif) [] "pb" "N1").catalogue "pb" "N2").catalogue
      = (runFs (some [FsNode.dir "2025-01-26_trip" [FsNode.file "a.jpg"]])
          (fun _ => fileNoExif) [] "pb" "N1").catalogue) := by
  have hext := idempotence_second_run.1 [photoU] [entryL] (fun _ => true) (fun _ => true)
    true (fun _ => some 500) (fun _ => some 500) "pb" "N1" "N2" (by decide) (by decide)
  have hfs := idempotence_second_run.2 (some [FsNode.dir "2025-01-26_trip" [FsNode.file "a.jpg"]])
    (fun _ => fileNoExif) [] "pb" "N1" "N2" (by decide)
  exact ⟨hext.1, hext.2.1, hfs.1⟩

end PhotoSync

namespace PhotoSync

theorem matchIso_eval (y1 y2 y3 y4 m1 m2 d1 d2 : Char) (rest : List Char)
    (h1 : y1.isDigit = true) (h2 : y2.isDigit = true) (h3 : y3.isDigit = true)
    (h4 : y4.isDigit = true) (h5 : m1.isDigit = true) (h6 : m2.isDigit = true)
    (h7 : d1.isDigit = true) (h8 : d2.isDigit = true) :
    matchIso ([y1, y2, y3, y4, '-', m1, m2, '-', d1, d2] ++ rest)
      = some (String.mk [y1, y2, y3, y4, '-', m1, m2, '-', d1, d2]) := by
  simp [matchIso, h1, h2, h3, h4, h5, h6, h7, h8]

theorem parseFolderDate_iso (name : String) (y1 y2 y3 y4 m1 m2 d1 d2 : Char)
    (rest : List Char)
    (h : name.toList = [y1, y2, y3, y4, '-', m1, m2, '-', d1, d2] ++ rest)
    (h1 : y1.isDigit = true) (h2 : y2.isDigit = true) (h3 : y3.isDigit = true)
    (h4 : y4.isDigit = true) (h5 : m1.isDigit = true) (h6 : m2.isDigit = true)
    (h7 : d1.isDigit = true) (h8 : d2.isDigit = true) :
    parseFolderDate name = String.mk [y1, y2, y3, y4, '-', m1, m2, '-', d1, d2] := by
  unfold parseFolderDate
  rw [h, matchIso_eval y1 y2 y3 y4 m1 m2 d1 d2 rest h1 h2 h3 h4 h5 h6 h7 h8]

theorem toLower_of_isDigit {c : Char} (h : c.isDigit = true) : c.toLower = c := by
  simp [Char.isDigit] at h
  obtain ⟨h1, h2⟩ := h
  have h1' : 48 ≤ c.val.toNat := h1
  have h2' : c.val.toNat ≤ 57 := h2
  simp only [Char.toLower, Char.toNat]
  have hno : ¬(65 ≤ c.val.toNat ∧ c.val.toNat ≤ 90) := by omega
  simp [hno]

theorem toLower_of_isAsciiLower {c : Char} (h : isAsciiLower c = true) : c.toLower = c := by
  simp [isAsciiLower] at h
  obtain ⟨h1, h2⟩ := h
  have h1' : 97 ≤ c.val.toNat := h1
  have h2' : c.val.toNat ≤ 122 := h2
  simp only [Char.toLower, Char.toNat]
  have hno : ¬(65 ≤ c.val.toNat ∧ c.val.toNat ≤ 90) := by omega
  simp [hno]

theorem val_toNat_ofNat {n : Nat} (h1 : 97 ≤ n) (h2 : n ≤ 122) :
    (Char.ofNat n).val.toNat = n := by
  have hv : n.isValidChar := by
    unfold Nat.isValidChar
    left
    omega
  simp [Char.ofNat, hv, Char.ofNatAux, UInt32.toNat]

theorem isAsciiLower_toLower_of_alpha {c : Char} (h : isAsciiAlpha c = true) :
    isAsciiLower c.toLower = true := by
  simp [isAsciiAlpha] at h
  rcases h with hlow | hup
  · rw [toLower_of_isAsciiLower (by simp [isAsciiLower, hlow.1, hlow.2])]
    simp [isAsciiLower, hlow.1, hlow.2]
  · obtain ⟨h1, h2⟩ := hup
    have h1' : 65 ≤ c.val.toNat := h1
    have h2' : c.val.toNat ≤ 90 := h2
    have hyes : 65 ≤ c.val.toNat ∧ c.val.toNat ≤ 90 := ⟨h1', h2'⟩
    simp only [Char.toLower, Char.toNat]
    rw [if_pos hyes]
    have hval : (Char.ofNat (c.val.toNat + 32)).val.toNat = c.val.toNat + 32 :=
      val_toNat_ofNat (by omega) (by omega)
    simp only [isAsciiLower]
    rw [Bool.and_eq_true]
    constructor
    · rw [decide_eq_true_eq]
      show (97 : UInt32) ≤ (Char.ofNat (c.val.toNat + 32)).val
      have hn : 97 ≤ (Char.ofNat (c.val.toNat + 32)).val.toNat := by omega
      exact hn
    · rw [decide_eq_true_eq]
      show (Char.ofNat (c.val.toNat + 32)).val ≤ (122 : UInt32)
      have hn : (Char.ofNat (c.val.toNat + 32)).val.toNat ≤ 122 := by omega
      exact hn

theorem takeWhile_all_append {p : Char → Bool} (l1 : List Char) (x : Char) (l2 : List Char)
    (h1 : ∀ c ∈ l1, p c = true) (hx : p x = false) :
    (l1 ++ x :: l2).takeWhile p = l1 ∧ (l1 ++ x :: l2).dropWhile p = x :: l2 := by
  induction l1 with
  | nil => simp [List.takeWhile_cons, List.dropWhile_cons, hx]
  | cons a l ih =>
    have ha : p a = true := h1 a (List.mem_cons_self _ _)
    have hrest := ih (fun c hc => h1 c (List.mem_cons_of_mem _ hc))
    simp [List.takeWhile_cons, List.dropWhile_cons, ha, hrest.1, hrest.2]

theorem matchMonth_eval (y1 y2 y3 y4 d1 d2 : Char) (mw : List Char) (v : MonthValue)
    (rest : List Char)
    (hy1 : y1.isDigit = true) (hy2 : y2.isDigit = true) (hy3 : y3.isDigit = true)
    (hy4 : y4.isDigit = true) (hd1 : d1.isDigit = true) (hd2 : d2.isDigit = true)
    (hmw : mw ≠ []) (hlow : ∀ c ∈ mw, isAsciiLower c = true)
    (hm : monthLookup (String.mk mw) = some v) :
    matchMonth ([y1, y2, y3, y4, '_'] ++ mw ++ '_' :: d1 :: d2 :: rest)
      = some (String.mk [y1, y2, y3, y4] ++ "-" ++ monthString v ++ "-" ++
          String.mk [d1, d2]) := by
  obtain ⟨htake, hdrop⟩ := takeWhile_all_append mw '_' (d1 :: d2 :: rest) hlow (by decide)
  simp only [List.cons_append, List.nil_append]
  simp [matchMonth, hy1, hy2, hy3, hy4, htake, hdrop, hmw, hd1, hd2, hm, padDay]

theorem map_toLower_shape (y1 y2 y3 y4 d1 d2 : Char) (mw : List Char) (rest : List Char)
    (hy1 : y1.isDigit = true) (hy2 : y2.isDigit = true) (hy3 : y3.isDigit = true)
    (hy4 : y4.isDigit = true) (hd1 : d1.isDigit = true) (hd2 : d2.isDigit = true) :
    ([y1, y2, y3, y4, '_'] ++ mw ++ '_' :: d1 :: d2 :: rest).map Char.toLower
      = [y1, y2, y3, y4, '_'] ++ mw.map Char.toLower ++ '_' :: d1 :: d2 ::
          rest.map Char.toLower := by
  simp [toLower_of_isDigit hy1, toLower_of_isDigit hy2, toLower_of_isDigit hy3,
    toLower_of_isDigit hy4, toLower_of_isDigit hd1, toLower_of_isDigit hd2]

theorem parseFolderDate_month (name : String) (y1 y2 y3 y4 d1 d2 : Char) (mw : List Char)
    (v : MonthValue) (rest : List Char)
    (h : name.toList = [y1, y2, y3, y4, '_'] ++ mw ++ '_' :: d1 :: d2 :: rest)
    (hy1 : y1.isDigit = true) (hy2 : y2.isDigit = true) (hy3 : y3.isDigit = true)
    (hy4 : y4.isDigit = true) (hd1 : d1.isDigit = true) (hd2 : d2.isDigit = true)
    (hmw : mw ≠ []) (halpha : ∀ c ∈ mw, isAsciiAlpha c = true)
    (hm : monthLookup (String.mk (mw.map Char.toLower)) = some v) :
    parseFolderDate name
      = String.mk [y1, y2, y3, y4] ++ "-" ++ monthString v ++ "-" ++ String.mk [d1, d2] := by
  unfold parseFolderDate
  rw [h]
  have hiso : matchIso ([y1, y2, y3, y4, '_'] ++ mw ++ '_' :: d1 :: d2 :: rest) = none := by
    simp [matchIso]
  rw [hiso, map_toLower_shape y1 y2 y3 y4 d1 d2 mw rest hy1 hy2 hy3 hy4 hd1 hd2]
  have hmw' : mw.map Char.toLower ≠ [] := by
    intro hn
    exact hmw (List.map_eq_nil_iff.mp hn)
  have hlow : ∀ c ∈ mw.map Char.toLower, isAsciiLower c = true := by
    intro c hc
    obtain ⟨a, ha, rfl⟩ := List.mem_map.mp hc
    exact isAsciiLower_toLower_of_alpha (halpha a ha)
  rw [matchMonth_eval y1 y2 y3 y4 d1 d2 (mw.map Char.toLower) v (rest.map Char.toLower)
    hy1 hy2 hy3 hy4 hd1 hd2 hmw' hlow hm]

theorem parseFolderDate_fallback (name : String) (h1 : matchIso name.toList = none)
    (h2 : matchMonth (name.toList.map Char.toLower) = none) :
    parseFolderDate name = name := by
  unfold parseFolderDate
  rw [h1, h2]

/-- Claim C8: the folder-date parser maps `YYYY-MM-DD...` prefixes to
`YYYY-MM-DD` and `YYYY_monthname_DD` prefixes (case-insensitive month
names) to the zero-padded `YYYY-MM-DD`, and is documented (`Parse a folder
name to an ISO date string`, `Fallback: return the folder name as-is`) to
return any other folder name unchanged.  But the month lookup
`MONTH_NAMES[m2[2]]` on a plain object literal walks the JavaScript
prototype chain: for the folder `2025_constructor_26` the matched word
`constructor` resolves to the inherited `Object` constructor, which is
truthy and passes the `if (month)` guard, so its stringified source text is
spliced into the returned date instead of the name being returned
unchanged — a code bug, evaluated here at the failing input and, for the
claim's correct clauses, at the specification's three examples. -/
theorem parseFolderDate_constructor_bug :
    parseFolderDate "2025_constructor_26"
      = "2025-function Object() \x7b [native code] \x7d-26" ∧
    parseFolderDate "2025_constructor_26" ≠ "2025_constructor_26" ∧
    parseFolderDate "2025-01-26_trip" = "2025-01-26" ∧
    parseFolderDate "2025_january_26" = "2025-01-26" ∧
    parseFolderDate "random_name" = "random_name" := by
  refine ⟨?_, ?_, ?_, ?_, ?_⟩ <;> decide

end PhotoSync

namespace PhotoSync

theorem digitChar_lt_iff {a b : Nat} (ha : a < 10) (hb : b < 10) :
    digitChar a < digitChar b ↔ a < b := by
  interval_cases a <;> interval_cases b <;> simp [digitChar]

theorem digitChar_eq_iff {a b : Nat} (ha : a < 10) (hb : b < 10) :
    digitChar a = digitChar b ↔ a = b := by
  interval_cases a <;> interval_cases b <;> simp [digitChar]

theorem digitChar_isDigit (n : Nat) : (digitChar n).isDigit = true := by
  match n with
  | 0 | 1 | 2 | 3 | 4 | 5 | 6 | 7 | 8 => decide
  | n + 9 =>
    have h : digitChar (n + 9) = '9' := rfl
    rw [h]
    decide

theorem lexCharIff {a b : Char} {l1 l2 : List Char} :
    List.Lex (· < ·) (a :: l1) (b :: l2) ↔ a < b ∨ (a = b ∧ List.Lex (· < ·) l1 l2) := by
  constructor
  · intro h
    cases h with
    | rel h => exact Or.inl h
    | cons h => exact Or.inr ⟨rfl, h⟩
  · rintro (h | ⟨rfl, h⟩)
    · exact List.Lex.rel h
    · exact List.Lex.cons h

theorem lex_append_iff : ∀ {a b : List Char}, a.length = b.length → ∀ {l1 l2 : List Char},
    (List.Lex (· < ·) (a ++ l1) (b ++ l2) ↔
      List.Lex (· < ·) a b ∨ (a = b ∧ List.Lex (· < ·) l1 l2)) := by
  intro a
  induction a with
  | nil =>
    intro b hb l1 l2
    cases b with
    | nil => simp [List.Lex.not_nil_right]
    | cons y b' => simp at hb
  | cons x a' ih =>
    intro b hb l1 l2
    cases b with
    | nil => simp at hb
    | cons y b' =>
      have hlen : a'.length = b'.length := by simpa using hb
      simp only [List.cons_append]
      rw [lexCharIff, ih hlen, lexCharIff]
      constructor
      · rintro (h | ⟨rfl, (h | ⟨rfl, h⟩)⟩)
        · exact Or.inl (Or.inl h)
        · exact Or.inl (Or.inr ⟨rfl, h⟩)
        · exact Or.inr ⟨rfl, h⟩
      · rintro ((h | ⟨rfl, h⟩) | ⟨heq, h⟩)
        · exact Or.inl h
        · exact Or.inr ⟨rfl, Or.inl h⟩
        · obtain ⟨rfl, rfl⟩ := List.cons.inj heq
          exact Or.inr ⟨rfl, Or.inr ⟨rfl, h⟩⟩

theorem pad2c_lt_iff {x y : Nat} (hx : x < 100) (hy : y < 100) :
    List.Lex (· < ·) (pad2c x) (pad2c y) ↔ x < y := by
  unfold pad2c
  rw [lexCharIff, lexCharIff]
  have h1 : x / 10 < 10 := by omega
  have h2 : x % 10 < 10 := by omega
  have h3 : y / 10 < 10 := by omega
  have h4 : y % 10 < 10 := by omega
  rw [digitChar_lt_iff h1 h3, digitChar_eq_iff h1 h3, digitChar_lt_iff h2 h4,
    digitChar_eq_iff h2 h4]
  simp [List.Lex.not_nil_right]
  omega

theorem pad2c_eq_iff {x y : Nat} (hx : x < 100) (hy : y < 100) :
    pad2c x = pad2c y ↔ x = y := by
  unfold pad2c
  have h1 : x / 10 < 10 := by omega
  have h2 : x % 10 < 10 := by omega
  have h3 : y / 10 < 10 := by omega
  have h4 : y % 10 < 10 := by omega
  simp only [List.cons.injEq, and_true]
  rw [digitChar_eq_iff h1 h3, digitChar_eq_iff h2 h4]
  omega

theorem pad4c_lt_iff {x y : Nat} (hx : x < 10000) (hy : y < 10000) :
    List.Lex (· < ·) (pad4c x) (pad4c y) ↔ x < y := by
  unfold pad4c
  rw [lexCharIff, lexCharIff, lexCharIff, lexCharIff]
  have h1 : x / 1000 < 10 := by omega
  have h2 : x / 100 % 10 < 10 := by omega
  have h3 : x / 10 % 10 < 10 := by omega
  have h4 : x % 10 < 10 := by omega
  have h5 : y / 1000 < 10 := by omega
  have h6 : y / 100 % 10 < 10 := by omega
  have h7 : y / 10 % 10 < 10 := by omega
  have h8 : y % 10 < 10 := by omega
  rw [digitChar_lt_iff h1 h5, digitChar_eq_iff h1 h5, digitChar_lt_iff h2 h6,
    digitChar_eq_iff h2 h6, digitChar_lt_iff h3 h7, digitChar_eq_iff h3 h7,
    digitChar_lt_iff h4 h8, digitChar_eq_iff h4 h8]
  simp [List.Lex.not_nil_right]
  omega

theorem pad4c_eq_iff {x y : Nat} (hx : x < 10000) (hy : y < 10000) :
    pad4c x = pad4c y ↔ x = y := by
  unfold pad4c
  have h1 : x / 1000 < 10 := by omega
  have h2 : x / 100 % 10 < 10 := by omega
  have h3 : x / 10 % 10 < 10 := by omega
  have h4 : x % 10 < 10 := by omega
  have h5 : y / 1000 < 10 := by omega
  have h6 : y / 100 % 10 < 10 := by omega
  have h7 : y / 10 % 10 < 10 := by omega
  have h8 : y % 10 < 10 := by omega
  simp only [List.cons.injEq, and_true]
  rw [digitChar_eq_iff h1 h5, digitChar_eq_iff h2 h6, digitChar_eq_iff h3 h7,
    digitChar_eq_iff h4 h8]
  omega

theorem isoDateTime_toList (t : Timestamp) :
    (isoDateTime t).toList
      = pad4c t.year ++ '-' :: (pad2c t.month ++ '-' :: (pad2c t.day ++ 'T' ::
          (pad2c t.hour ++ ':' :: (pad2c t.minute ++ ':' :: pad2c t.second)))) := by
  simp [isoDateTime, pad4, pad2, String.toList]

theorem isoDateTime_lt_iff {t₁ t₂ : Timestamp} (h₁ : tsInRange t₁) (h₂ : tsInRange t₂) :
    isoDateTime t₁ < isoDateTime t₂ ↔ tsVal t₁ < tsVal t₂ := by
  obtain ⟨hy₁, hmo₁, hd₁, hh₁, hmi₁, hs₁⟩ := h₁
  obtain ⟨hy₂, hmo₂, hd₂, hh₂, hmi₂, hs₂⟩ := h₂
  rw [String.lt_iff_toList_lt]
  show List.Lex (· < ·) (isoDateTime t₁).toList (isoDateTime t₂).toList ↔ _
  rw [isoDateTime_toList, isoDateTime_toList]
  have e1 : (pad4c t₁.year).length = (pad4c t₂.year).length := rfl
  have e2 : (pad2c t₁.month).length = (pad2c t₂.month).length := rfl
  have e3 : (pad2c t₁.day).length = (pad2c t₂.day).length := rfl
  have e4 : (pad2c t₁.hour).length = (pad2c t₂.hour).length := rfl
  have e5 : (pad2c t₁.minute).length = (pad2c t₂.minute).length := rfl
  rw [lex_append_iff e1, lexCharIff]
  rw [lex_append_iff e2, lexCharIff]
  rw [lex_append_iff e3, lexCharIff]
  rw [lex_append_iff e4, lexCharIff]
  rw [lex_append_iff e5, lexCharIff]
  rw [pad4c_lt_iff hy₁ hy₂, pad4c_eq_iff hy₁ hy₂,
    pad2c_lt_iff hmo₁ hmo₂, pad2c_eq_iff hmo₁ hmo₂,
    pad2c_lt_iff hd₁ hd₂, pad2c_eq_iff hd₁ hd₂,
    pad2c_lt_iff hh₁ hh₂, pad2c_eq_iff hh₁ hh₂,
    pad2c_lt_iff hmi₁ hmi₂, pad2c_eq_iff hmi₁ hmi₂,
    pad2c_lt_iff hs₁ hs₂]
  simp only [lt_self_iff_false, false_or, eq_self_iff_true, true_and]
  unfold tsVal
  omega

theorem isoDateTime_le_iff {t₁ t₂ : Timestamp} (h₁ : tsInRange t₁) (h₂ : tsInRange t₂) :
    isoDateTime t₁ ≤ isoDateTime t₂ ↔ tsVal t₁ ≤ tsVal t₂ := by
  rw [← not_lt, isoDateTime_lt_iff h₂ h₁]
  omega

theorem isIsoTimestamp_isoDateTime {t : Timestamp} :
    isIsoTimestamp (isoDateTime t) = true := by
  unfold isIsoTimestamp
  rw [isoDateTime_toList]
  simp [pad4c, pad2c, isIsoTimestampChars, digitChar_isDigit]

/-- Claim C6, counterexample: a photo with no EXIF capture date in folder
`random_name` produces the catalogue entry `date_taken =
"random_nameT00:00:00"`, which is not a zero-padded fixed-width ISO
timestamp — refuting the claim that every produced entry's `date_taken` is
one (and with it the premise that the lexicographic sort is always
chronological). -/
theorem date_taken_not_iso_cex :
    ((runFs (some [FsNode.dir "random_name" [FsNode.file "a.jpg"]]) (fun _ => fileNoExif)
        [] "pb" "now").catalogue).map (fun e => e.date_taken) = ["random_nameT00:00:00"] ∧
    isIsoTimestamp "random_nameT00:00:00" = false := by
  constructor
  · have h : (runFs (some [FsNode.dir "random_name" [FsNode.file "a.jpg"]])
        (fun _ => fileNoExif) [] "pb" "now").catalogue
        = sortCat [fsEntry "pb" fileNoExif ["random_name", "a.jpg"] "now"] := by
      show sortCat (fsLoop (fun _ => fileNoExif) "pb" "now"
        (walkImages (some [FsNode.dir "random_name" [FsNode.file "a.jpg"]]))
        { catalogue := [], knownIds := [], added := 0, skipped := 0,
          uploadedKeys := [] }).catalogue = _
      congr 1
    rw [h, sortCat_single]
    decide
  · decide

/-- Claim C6 (amended): `date_taken` is a zero-padded fixed-width ISO
timestamp whenever it comes from an EXIF capture date (and lexicographic
string comparison of such timestamps agrees with chronological order, so the
descending sort is reverse-chronological on them); but when EXIF has no
date the entry gets `album ++ "T00:00:00"` with the album falling back to
the literal folder name, which need not be ISO-shaped (see the
counterexample).  The persisted catalogue is always sorted descending by
the `date_taken` string. -/
theorem date_taken_format_amended :
    (∀ (pb : String) (c : PhotoFile) (path : List String) (now : String) (ts : Timestamp),
      c.exifDate = some ts → (fsEntry pb c path now).date_taken = isoDateTime ts) ∧
    (∀ t : Timestamp, isIsoTimestamp (isoDateTime t) = true) ∧
    (∀ t₁ t₂ : Timestamp, tsInRange t₁ → tsInRange t₂ →
      (isoDateTime t₁ ≤ isoDateTime t₂ ↔ tsVal t₁ ≤ tsVal t₂)) ∧
    (∀ (pb : String) (c : PhotoFile) (path : List String) (now : String),
      c.exifDate = none →
      (fsEntry pb c path now).date_taken
        = parseFolderDate (folderPart path) ++ "T00:00:00") ∧
    (∀ (root : Option (List FsNode)) (read : List String → PhotoFile) (cat0 : List Entry)
        (pb now : String),
      (runFs root read cat0 pb now).catalogue.Pairwise
        (fun a b => b.date_taken ≤ a.date_taken)) := by
  refine ⟨?_, ?_, ?_, ?_, ?_⟩
  · intro pb c path now ts hc
    simp [fsEntry, fsDateTaken, fsAlbum, hc]
  · exact fun t => isIsoTimestamp_isoDateTime
  · exact fun t₁ t₂ h₁ h₂ => isoDateTime_le_iff h₁ h₂
  · intro pb c path now hc
    simp [fsEntry, fsDateTaken, fsAlbum, hc]
  · intro root read cat0 pb now
    show (sortCat (fsLoop read pb now (walkImages root)
      { catalogue := cat0, knownIds := cat0.map (fun x => x.id), added := 0, skipped := 0,
        uploadedKeys := [] }).catalogue).Pairwise (fun a b => b.date_taken ≤ a.date_taken)
    exact (sortCat_sorted _).imp (fun h => of_decide_eq_true h)

/-- Witness for the amended C6 at concrete inputs: an EXIF-dated photo gets
the fixed-width ISO timestamp, an EXIF-less photo gets the album fallback,
and the example pair of the specification compares lexicographically in
chronological order. -/
theorem date_taken_format_amended_witness :
    (fsEntry "pb"
        { id := "aabbccddeeff", exifDate := some ⟨2025, 1, 26, 14, 3, 22⟩, width := 4,
          height := 3, exifBuilt := {}, ok := true } ["x.jpg"] "now").date_taken
      = isoDateTime ⟨2025, 1, 26, 14, 3, 22⟩ ∧
    isIsoTimestamp (isoDateTime ⟨2025, 1, 26, 14, 3, 22⟩) = true ∧
    (isoDateTime ⟨2024, 5, 1, 0, 0, 0⟩ ≤ isoDateTime ⟨2025, 1, 1, 0, 0, 0⟩ ↔
      tsVal ⟨2024, 5, 1, 0, 0, 0⟩ ≤ tsVal ⟨2025, 1, 1, 0, 0, 0⟩) ∧
    (fsEntry "pb" fileNoExif ["random_name", "a.jpg"] "now").date_taken
      = parseFolderDate "random_name" ++ "T00:00:00" :=
  ⟨date_taken_format_amended.1 "pb"
      { id := "aabbccddeeff", exifDate := some ⟨2025, 1, 26, 14, 3, 22⟩, width := 4,
        height := 3, exifBuilt := {}, ok := true } ["x.jpg"] "now"
      ⟨2025, 1, 26, 14, 3, 22⟩ rfl,
   date_taken_format_amended.2.1 ⟨2025, 1, 26, 14, 3, 22⟩,
   date_taken_format_amended.2.2.1 ⟨2024, 5, 1, 0, 0, 0⟩ ⟨2025, 1, 1, 0, 0, 0⟩
      ⟨by decide, by decide, by decide, by decide, by decide, by decide⟩
      ⟨by decide, by decide, by decide, by decide, by decide, by decide⟩,
   date_taken_format_amended.2.2.2.1 "pb" fileNoExif ["random_name", "a.jpg"] "now" rfl⟩

end PhotoSync
